import Mathlib

/-!
# Verification of `typed-cdp-sql`

A shallow embedding, in Lean, of the parsing / type-resolution / compilation
core of the `typed-cdp-sql` TypeScript library, together with theorems about
the embedded definitions.

The TypeScript source computes mostly at the type level with template-literal
types.  Template-literal pattern matching (`S extends `${infer A}pat${infer B}``)
is non-greedy / leftmost, which we embed as "split at the first occurrence of
the pattern".  Strings are embedded as `List Char` with `String` wrappers.
-/

namespace TypedCdpSql

/-! ## String utilities (src/utils.ts) -/
/-- The whitespace characters recognized by `Trim` in utils.ts. -/
def isWsChar (c : Char) : Bool := c = ' ' || c = '\n' || c = '\t' || c = '\r'

/-- `TrimStart<S>`: drop leading whitespace characters. -/
def trimStartL : List Char → List Char
  | [] => []
  | c :: r => if isWsChar c then trimStartL r else c :: r

/-- `TrimEnd<S>`: drop trailing whitespace characters (via reversal). -/
def trimEndL (s : List Char) : List Char := (trimStartL s.reverse).reverse

/-- `Trim<S> = TrimStart<TrimEnd<S>>`. -/
def trimL (s : List Char) : List Char := trimStartL (trimEndL s)

/-- The character rewriting performed by `CollapseWhitespace`: each of
`\n`, `\r`, `\t` becomes a single space. -/
def wsToSpace (c : Char) : Char := if c = '\n' || c = '\r' || c = '\t' then ' ' else c

/-- Collapse every run of two or more spaces to a single space (the fixed
point of the `"  " → " "` rewriting step of `CollapseWhitespace`). -/
def squeezeSpaces : List Char → List Char
  | [] => []
  | [c] => [c]
  | a :: b :: r =>
    if a = ' ' && b = ' ' then squeezeSpaces (b :: r) else a :: squeezeSpaces (b :: r)

/-- `CollapseWhitespace<S>` (utils.ts): the source rewrites the first
`\n`/`\r`/`\t`/double-space occurrence and recurses until none is left; its
fixed point is: map the three escapes to spaces, then squeeze space runs. -/
def collapseWsL (s : List Char) : List Char := squeezeSpaces (s.map wsToSpace)

/-- `StripSemicolon<S>`: if the string ends with `;`, drop that single `;`
and trim; otherwise leave the string unchanged. -/
def stripSemicolonL (s : List Char) : List Char :=
  if s.getLast? = some ';' then trimL s.dropLast else s

/-- `Normalize<S>` (src/normalize.ts):
`StripSemicolon<Trim<CollapseWhitespace<Lowercase<S>>>>`. -/
def normalizeL (s : List Char) : List Char :=
  stripSemicolonL (trimL (collapseWsL (s.map Char.toLower)))

/-- `Normalize` on `String`. -/
def normalizeStr (s : String) : String := (normalizeL s.data).asString

/-! ## Template-literal pattern matching

`S extends `${infer A}pat${infer B}`` in TypeScript matches non-greedily:
`A` is the text before the *first* occurrence of `pat` and `B` the text after
it.  `splitFirstL` embeds that primitive. -/
/-- Split `s` at the first occurrence of `pat`, returning the text before and
after it; `none` when `pat` does not occur in `s`. -/
def splitFirstL (pat : List Char) : List Char → Option (List Char × List Char)
  | [] => if pat = [] then some ([], []) else none
  | c :: r =>
    if pat.isPrefixOf (c :: r) then some ([], (c :: r).drop pat.length)
    else
      match splitFirstL pat r with
      | some (a, b) => some (c :: a, b)
      | none => none

/-- `pat` occurs as a substring of `s`. -/
def containsSub (pat s : List Char) : Bool := (splitFirstL pat s).isSome

/-! ## The semantic type model (`MapSqlType`, src/sql-types.ts)

TypeScript types produced by resolution.  Unions are embedded as `unionT`
with the members in the order the source produces them. -/
inductive TsType where
  | numericString   -- `${number}`
  | hexString       -- `0x${string}`
  | str             -- string
  | boolean
  | number
  | nullT           -- null (only inside nullable unions)
  | unknown
  | arrayT (t : TsType)
  | recordT (v : TsType)   -- Record<string, v>
  | unionT (ts : List TsType)

/-- The loose variant union `boolean | `${number}` | string`. -/
def variantT : TsType := .unionT [.boolean, .numericString, .str]

/-!
The source's recursive type functions recurse on strictly shorter strings.
Following the explicit recursion-depth bound the spec requires of a runtime
implementation (§5), each is embedded with a depth budget that decreases at
every call; a budget of `length + 1` always suffices because every recursive
call consumes at least one character, so the budget never reaches `0` before
the string is exhausted.
-/
mutual
/-- `MapSqlType<T>` (src/sql-types.ts), with depth budget: map a (lowercased)
SQL type string to its TypeScript type.  Branch order mirrors the source. -/
def mapSqlTypeFuel : Nat → List Char → TsType
  | 0, _ => .unknown
  | fuel + 1, s =>
    if s = "uint64".data then .numericString
    else if s = "uint256".data then .numericString
    else if s = "int256".data then .numericString
    else if s = "hex".data then .hexString
    else if s = "string".data then .str
    else if "nullable(".data.isPrefixOf s ∧ s.getLast? = some ')' then
      .unionT [mapSqlTypeFuel fuel (trimL ((s.drop 9).dropLast)), .nullT]
    else if s = "datetime".data then .str
    else if "datetime64".data.isPrefixOf s then .str
    else if s = "bool".data then .boolean
    else if s = "int8".data then .number
    else if s = "uint32".data then .number
    else if "enum8".data.isPrefixOf s then .number
    else if "array(".data.isPrefixOf s ∧ s.getLast? = some ')' then
      .arrayT (mapSqlTypeFuel fuel (trimL ((s.drop 6).dropLast)))
    else if "map(".data.isPrefixOf s ∧ s.getLast? = some ')' then
      parseMapTypeFuel fuel (trimL ((s.drop 4).dropLast))
    else if "variant(".data.isPrefixOf s ∧ s.getLast? = some ')' then
      .unionT [.boolean, .numericString, .str]
    else .unknown

/-- `ParseMapType<S>`: `"K, V"` splits at the first `", "`; the key is always
simple so the value is everything after it. -/
def parseMapTypeFuel : Nat → List Char → TsType
  | 0, _ => .recordT .unknown
  | fuel + 1, s =>
    match splitFirstL ", ".data s with
    | some (_, v) => .recordT (mapSqlTypeFuel fuel (trimL v))
    | none => .recordT .unknown
end

/-- `MapSqlType<T>` on characters. -/
def mapSqlTypeL (s : List Char) : TsType := mapSqlTypeFuel (s.length + 1) s

/-- `MapSqlType` on `String`. -/
def mapSqlType (s : String) : TsType := mapSqlTypeL s.data

/-! ## Schema catalog (src/schema.ts)

Each table schema maps column names to SQL type descriptor strings
(original casing, as in the source). -/
def blocksSchema : List (String × String) := [
  ("block_number", "uint64"), ("block_hash", "Hex"), ("parent_hash", "Hex"),
  ("timestamp", "DateTime"), ("miner", "Hex"), ("nonce", "uint64"),
  ("sha3_uncles", "Hex"), ("transactions_root", "Hex"), ("state_root", "Hex"),
  ("receipts_root", "Hex"), ("logs_bloom", "Hex"), ("gas_limit", "uint64"),
  ("gas_used", "uint64"), ("base_fee_per_gas", "uint64"),
  ("total_difficulty", "String"), ("size", "uint64"), ("extra_data", "Hex"),
  ("mix_hash", "Hex"), ("withdrawals_root", "Hex"),
  ("parent_beacon_block_root", "Hex"), ("blob_gas_used", "uint64"),
  ("excess_blob_gas", "uint64"), ("transaction_count", "uint64"),
  ("action", "Int8")]

def eventsSchema : List (String × String) := [
  ("block_number", "uint64"), ("block_hash", "Hex"),
  ("timestamp", "DateTime64(9)"), ("transaction_hash", "Hex"),
  ("transaction_to", "Hex"), ("transaction_from", "Hex"),
  ("transaction_index", "uint64"), ("log_index", "uint64"), ("address", "Hex"),
  ("topics", "Array(Hex)"), ("event_name", "String"),
  ("event_signature", "String"),
  ("parameters", "Map(String, Variant(Bool, Int256, String, uint256))"),
  ("parameter_types", "Map(String, String)"), ("action", "Int8")]

def transactionsSchema : List (String × String) := [
  ("block_number", "uint64"), ("block_hash", "Hex"),
  ("transaction_hash", "Hex"), ("transaction_index", "uint64"),
  ("from_address", "Hex"), ("to_address", "Hex"), ("value", "String"),
  ("gas", "uint64"), ("gas_price", "uint64"), ("input", "Hex"),
  ("nonce", "uint64"), ("type", "uint64"), ("max_fee_per_gas", "uint64"),
  ("max_priority_fee_per_gas", "uint64"), ("chain_id", "uint64"),
  ("v", "Hex"), ("r", "Hex"), ("s", "Hex"), ("is_system_tx", "Bool"),
  ("max_fee_per_blob_gas", "String"), ("blob_versioned_hashes", "Array(Hex)"),
  ("timestamp", "DateTime64(9)"), ("action", "Int8")]

def encodedLogsSchema : List (String × String) := [
  ("block_number", "uint64"), ("block_hash", "Hex"),
  ("block_timestamp", "DateTime64(9)"), ("transaction_hash", "Hex"),
  ("transaction_to", "Hex"), ("transaction_from", "Hex"),
  ("log_index", "uint32"), ("address", "Hex"), ("topics", "Array(Hex)"),
  ("action", "Int8")]

def transfersSchema : List (String × String) := [
  ("block_number", "uint64"), ("block_timestamp", "DateTime64(9)"),
  ("transaction_to", "Hex"), ("transaction_from", "Hex"),
  ("log_index", "uint32"), ("token_address", "Hex"),
  ("from_address", "Hex"), ("to_address", "Hex"), ("value", "uint256"),
  ("action", "Int8")]

/-- `TableSchemas` (src/schema.ts): both namespaced and bare names. -/
def tableSchemas : List (String × List (String × String)) := [
  ("base.blocks", blocksSchema), ("base.events", eventsSchema),
  ("base.transactions", transactionsSchema),
  ("base.encoded_logs", encodedLogsSchema), ("base.transfers", transfersSchema),
  ("blocks", blocksSchema), ("events", eventsSchema),
  ("transactions", transactionsSchema), ("encoded_logs", encodedLogsSchema),
  ("transfers", transfersSchema)]

/-! ## Schemas with union-typed columns

A schema used during resolution maps column names to a *union* of SQL type
strings.  Base schemas carry singletons; a JOIN merge (`MergeSchemas`,
src/resolve.ts) produces `A[K] | B[K]` for overlapping columns, with
TypeScript union collapse for identical literal types. -/
abbrev USchema := List (String × List String)

/-- Inject a base schema: every column's union is the singleton of its type. -/
def asUSchema (b : List (String × String)) : USchema :=
  b.map (fun kv => (kv.1, [kv.2]))

/-- Look up a column (expression given as characters) in a schema. -/
def lookupUSchema (sch : USchema) (e : List Char) : Option (List String) :=
  (sch.find? (fun kv => kv.1.data = e)).map (fun kv => kv.2)

/-- Union of two literal-type unions, with TypeScript set collapse
(duplicates are absorbed, first operand order first). -/
def unionTys (a b : List String) : List String :=
  a ++ b.filter (fun t => ¬ a.contains t)

/-- `MergeSchemas<A, B>` (src/resolve.ts) as a schema value: keys of `A`
followed by the keys only in `B`; an overlapping key gets `A[K] | B[K]`. -/
def mergeUSchemas (A B : USchema) : USchema :=
  (A.map (fun kv =>
    match (B.find? (fun kv2 => kv2.1 = kv.1)).map (fun kv2 => kv2.2) with
    | some bt => (kv.1, unionTys kv.2 bt)
    | none => kv))
  ++ B.filter (fun kv2 => (A.find? (fun kv => kv.1 = kv2.1)).isNone)

/-- `MapSqlType<Lowercase<Schema[K] & string>>` where the column type may be
a union of literals: `MapSqlType` distributes over a naked union. -/
def mapSqlTypeUnion : List String → TsType
  | [t] => mapSqlTypeL (t.data.map Char.toLower)
  | ts => .unionT (ts.map (fun t => mapSqlTypeL (t.data.map Char.toLower)))

/-! ## Map-index pattern

`Expr extends `${infer Col}['${string}']`` matches (with backtracking) when
`Expr = Col ++ "['" ++ mid ++ "']"` for some split; `Col` is the text before
the first bracket-quote for which the remainder closes properly. -/
def mapAccessSplitFuel (p0 : Char) (prest suf : List Char) :
    Nat → List Char → Option (List Char)
  | 0, _ => none
  | fuel + 1, e =>
    match splitFirstL (p0 :: prest) e with
    | none => none
    | some (a, r) =>
      if suf.isSuffixOf r then some a
      else
        match mapAccessSplitFuel p0 prest suf fuel r with
        | some a2 => some (a ++ (p0 :: prest) ++ a2)
        | none => none

/-- The map-index split with its depth budget filled in. -/
def mapAccessSplit (p0 : Char) (prest suf : List Char) (e : List Char) :
    Option (List Char) :=
  mapAccessSplitFuel p0 prest suf (e.length + 1) e

/-! ## Expression type resolution (`ResolveExpression`, src/parse-expressions.ts) -/
/-- `ResolveExpression<Expr, Schema>`, with depth budget: the branch order
mirrors the source: schema column, qualifier stripping, single-quote map
index, double-quote map index, `cast( ... as ... )`, `count/sum/avg/min/max`,
fallback `unknown`. -/
def resolveExprFuel (sch : USchema) : Nat → List Char → TsType
  | 0, _ => .unknown
  | fuel + 1, e =>
    match lookupUSchema sch e with
    | some tys => mapSqlTypeUnion tys
    | none =>
      match splitFirstL ".".data e with
      | some (_, rest) => resolveExprFuel sch fuel rest
      | none =>
        match mapAccessSplit '[' "'".data "']".data e with
        | some col =>
          match lookupUSchema sch col with
          | some tys =>
            match mapSqlTypeUnion tys with
            | .recordT v => v
            | _ => .unknown
          | none => .unknown
        | none =>
          match mapAccessSplit '[' "\"".data "\"]".data e with
          | some col =>
            match lookupUSchema sch col with
            | some tys =>
              match mapSqlTypeUnion tys with
              | .recordT v => v
              | _ => .unknown
            | none => .unknown
          | none =>
            if "cast(".data.isPrefixOf e ∧ e.getLast? = some ')' then
              match splitFirstL " as ".data ((e.drop 5).dropLast) with
              | some (_, target) => mapSqlTypeL (trimL target)
              | none => .unknown
            else if "count(".data.isPrefixOf e ∧ e.getLast? = some ')' then
              .numericString
            else if "sum(".data.isPrefixOf e ∧ e.getLast? = some ')' then
              .numericString
            else if "avg(".data.isPrefixOf e ∧ e.getLast? = some ')' then
              .number
            else if "min(".data.isPrefixOf e ∧ e.getLast? = some ')' then
              resolveExprFuel sch fuel (trimL ((e.drop 4).dropLast))
            else if "max(".data.isPrefixOf e ∧ e.getLast? = some ')' then
              resolveExprFuel sch fuel (trimL ((e.drop 4).dropLast))
            else .unknown

/-- `ResolveExpression<Expr, Schema>` with its depth budget filled in. -/
def resolveExpressionL (e : List Char) (sch : USchema) : TsType :=
  resolveExprFuel sch (e.length + 1) e

/-- `ResolveExpression` over a base (non-merged) schema, on `String`s. -/
def resolveExpression (e : String) (sch : List (String × String)) : TsType :=
  resolveExpressionL e.data (asUSchema sch)

/-! ## FROM / JOIN clause extraction (src/parse-from.ts) -/
/-- `StripAlias<S>`: the text before the first space, if any. -/
def stripAliasL (s : List Char) : List Char :=
  match splitFirstL " ".data s with
  | some (t, _) => t
  | none => s

/-- The clause keywords checked, in source order, by `StripAfterKeyword`. -/
def clauseKeywords : List String :=
  [" where ", " group ", " order ", " limit ", " having ", " union ",
   " join ", " inner ", " left ", " right ", " full ", " cross "]

/-- Text before the first occurrence of the first keyword (in list order)
that occurs in `s`. -/
def firstKeywordSplit : List String → List Char → Option (List Char)
  | [], _ => none
  | k :: ks, s =>
    match splitFirstL k.data s with
    | some (t, _) => some t
    | none => firstKeywordSplit ks s

/-- `StripAfterKeyword<S>` (src/parse-from.ts). -/
def stripAfterKeywordL (s : List Char) : List Char :=
  match firstKeywordSplit clauseKeywords s with
  | some t => stripAliasL (trimL t)
  | none => stripAliasL (trimL s)

/-- `ExtractTableName<S>`: text after the first ` from `, up to the next
clause keyword, with a trailing alias token stripped; `never` (here `none`)
when the string has no ` from `. -/
def extractTableNameL (s : List Char) : Option (List Char) :=
  match splitFirstL " from ".data s with
  | some (_, rest) => some (stripAfterKeywordL (trimL rest))
  | none => none

/-- `HasJoin<S>`. -/
def hasJoinL (s : List Char) : Bool := containsSub " join ".data s

/-- `ExtractJoinedTableName<S>`. -/
def extractJoinedTableNameL (s : List Char) : Option (List Char) :=
  match splitFirstL " join ".data s with
  | some (_, rest) =>
    match splitFirstL " on ".data rest with
    | some (tbl, _) => some (stripAliasL (trimL tbl))
    | none => some (stripAfterKeywordL (trimL rest))
  | none => none

/-- Look up a table name (as characters) in the schema catalog. -/
def lookupTableSchema (name : List Char) : Option (List (String × String)) :=
  (tableSchemas.find? (fun kv => kv.1.data = name)).map (fun kv => kv.2)

/-! ## SELECT list parsing (src/parse-select.ts) -/
/-- One alternative of `ExtractSelectList`: match `pre ++ Cols ++ " from " ++ _`. -/
def selectListPat (pre : List Char) (s : List Char) : Option (List Char) :=
  if pre.isPrefixOf s then
    match splitFirstL " from ".data (s.drop pre.length) with
    | some (cols, _) => some (trimL cols)
    | none => none
  else none

/-- `ExtractSelectList<S>`: the text between `select [distinct]` and the
first following ` from `. -/
def extractSelectListL (s : List Char) : Option (List Char) :=
  match selectListPat "select distinct ".data s with
  | some c => some c
  | none => selectListPat "select ".data s

/-- `IsSelectStar<S>`. -/
def isSelectStarL (s : List Char) : Bool := trimL s = "*".data

/-- `SplitByComma` (src/utils.ts): split at top-level commas, tracking
parenthesis/bracket depth; each piece is trimmed. -/
def splitByCommaAux : List Char → Nat → List Char → List (List Char) →
    List (List Char)
  | [], _, cur, res => if cur = [] then res else res ++ [trimL cur]
  | c :: rest, depth, cur, res =>
    if c = '(' || c = '[' then splitByCommaAux rest (depth + 1) (cur ++ [c]) res
    else if c = ')' || c = ']' then
      splitByCommaAux rest (depth - 1) (cur ++ [c]) res
    else if c = ',' then
      if depth = 0 then splitByCommaAux rest 0 [] (res ++ [trimL cur])
      else splitByCommaAux rest depth (cur ++ [c]) res
    else splitByCommaAux rest depth (cur ++ [c]) res

def splitByCommaL (s : List Char) : List (List Char) := splitByCommaAux s 0 [] []

/-- `SelectItem`: a parsed projection item. -/
structure SelectItem where
  expr : List Char
  aliasName : List Char
deriving DecidableEq, Repr

/-- `InferDefaultAlias<S>` (src/parse-select.ts): bracket/paren expressions
are kept verbatim, otherwise a single leading qualifier is stripped,
otherwise the text itself. -/
def inferDefaultAliasL (s : List Char) : List Char :=
  if containsSub "[".data s then s
  else if containsSub "(".data s then s
  else
    match splitFirstL ".".data s with
    | some (_, col) => col
    | none => s

/-- `FindLastAs<Prefix, Rest>`: consume ` as ` occurrences from the left
until the remainder holds no further ` as `; that remainder is the alias. -/
def findLastAsFuel : Nat → List Char → List Char → SelectItem
  | 0, pre, rest =>
    ⟨trimL (pre ++ " as ".data ++ rest),
     inferDefaultAliasL (trimL (pre ++ " as ".data ++ rest))⟩
  | fuel + 1, pre, rest =>
    match splitFirstL " as ".data rest with
    | some (a, b) =>
      if containsSub " as ".data b then
        findLastAsFuel fuel (pre ++ " as ".data ++ a) b
      else ⟨trimL (pre ++ " as ".data ++ a), trimL b⟩
    | none =>
      ⟨trimL (pre ++ " as ".data ++ rest),
       inferDefaultAliasL (trimL (pre ++ " as ".data ++ rest))⟩

/-- `FindLastAs` with its depth budget filled in. -/
def findLastAsL (pre rest : List Char) : SelectItem :=
  findLastAsFuel (rest.length + 1) pre rest

/-- `ParseSingleItem<S>` (src/parse-select.ts). -/
def parseSingleItemL (s : List Char) : SelectItem :=
  match splitFirstL " as ".data (trimL s) with
  | some (e, a) =>
    if containsSub " as ".data a then findLastAsL (trimL e) a
    else ⟨trimL e, trimL a⟩
  | none => ⟨trimL s, inferDefaultAliasL (trimL s)⟩

/-- `ParseSelectItems<S>`. -/
def parseSelectItemsL (s : List Char) : List SelectItem :=
  (splitByCommaL s).map parseSingleItemL

/-- `ParseSingleItem` on `String`s. -/
def parseSingleItem (s : String) : SelectItem := parseSingleItemL s.data

/-- `InferDefaultAlias` on `String`s. -/
def inferDefaultAlias (s : String) : String := (inferDefaultAliasL s.data).asString

/-! ## Row assembly and the full text-path pipeline
(src/resolve.ts and `TypedQuery` / `InferRow`, src/index.ts) -/
/-- `ResolveRow<Items, Schema>`: each item contributes
`{ [alias]: ResolveExpression<expr, Schema> }`, in order. -/
def resolveRowL (items : List SelectItem) (sch : USchema) :
    List (String × TsType) :=
  items.map (fun it => (it.aliasName.asString, resolveExpressionL it.expr sch))

/-- `FullRow<Schema>`: every column mapped through `MapSqlType`. -/
def fullRowL (sch : USchema) : List (String × TsType) :=
  sch.map (fun kv => (kv.1, mapSqlTypeUnion kv.2))

/-- The output of `InferRow`: either the permissive fallback
`Record<string, unknown>` or a resolved row shape. -/
inductive RowShape where
  | fallback
  | resolved (cols : List (String × TsType))

/-- `ResolveSchema<S, TableName>` (src/index.ts): for JOIN queries, merge
the FROM schema with the joined table's schema when the latter is known. -/
def resolveSchemaL (s : List Char) (base : List (String × String)) : USchema :=
  if hasJoinL s then
    match extractJoinedTableNameL s with
    | some jn =>
      match lookupTableSchema jn with
      | some jsch => mergeUSchemas (asUSchema base) (asUSchema jsch)
      | none => asUSchema base
    | none => asUSchema base
  else asUSchema base

/-- `InferRow<S>` (src/index.ts) on an already-normalized string: each stage
failure degrades to the fallback row type. -/
def inferRowL (s : List Char) : RowShape :=
  match extractTableNameL s with
  | none => .fallback
  | some tn =>
    match lookupTableSchema tn with
    | none => .fallback
    | some base =>
      let sch := resolveSchemaL s base
      match extractSelectListL s with
      | none => .fallback
      | some sl =>
        if isSelectStarL sl then .resolved (fullRowL sch)
        else .resolved (resolveRowL (parseSelectItemsL sl) sch)

/-- `TypedQuery<SQL>`'s row type: `InferRow<Normalize<SQL>>`. -/
def typedQueryRow (sql : String) : RowShape := inferRowL (normalizeL sql.data)

/-- `ExtractTableName` on `String`s, composed with `Normalize`. -/
def extractTableName (s : String) : Option String :=
  (extractTableNameL s.data).map List.asString

/-- `ExtractSelectList` on `String`s. -/
def extractSelectList (s : String) : Option String :=
  (extractSelectListL s.data).map List.asString

/-- No two adjacent spaces. -/
def NoTwoSpaces (l : List Char) : Prop :=
  List.Chain' (fun a b => ¬(a = ' ' ∧ b = ' ')) l

/-- Executable check for `NoTwoSpaces`. -/
def noTwoSpacesB : List Char → Bool
  | [] => true
  | [_] => true
  | a :: b :: r => (!(a = ' ' && b = ' ')) && noTwoSpacesB (b :: r)

instance noTwoSpacesDecidable (l : List Char) : Decidable (NoTwoSpaces l) :=
  decidable_of_iff (noTwoSpacesB l = true) (by
    induction l with
    | nil => simp [noTwoSpacesB, NoTwoSpaces]
    | cons c r ih =>
      cases r with
      | nil => simp [noTwoSpacesB, NoTwoSpaces]
      | cons b t =>
        rw [NoTwoSpaces, List.chain'_cons, ← NoTwoSpaces, ← ih]
        simp only [noTwoSpacesB, Bool.and_eq_true, Bool.not_eq_eq_eq_not,
          Bool.not_true, Bool.and_eq_false_iff]
        constructor
        · rintro ⟨h1, h2⟩
          refine ⟨?_, h2⟩
          intro hcon
          simp [hcon.1, hcon.2] at h1
        · rintro ⟨h1, h2⟩
          refine ⟨?_, h2⟩
          by_cases hc : c = ' '
          · by_cases hb : b = ' '
            · exact absurd ⟨hc, hb⟩ h1
            · simp [hb]
          · simp [hc])

/-! ## Claim C3: JOIN schema merging (`MergeSchemas`, src/resolve.ts) -/
/-- Assoc-list lookup of a column's declared SQL type in a table schema. -/
def lookupSchemaTy (sch : List (String × String)) (k : String) : Option String :=
  (sch.find? (fun kv => kv.1 = k)).map (fun kv => kv.2)

/-- `MergeSchemas<A, B>` observed pointwise at a column name.  The TypeScript
mapped type has key set `keyof A | keyof B` and value
`K ∈ A ∩ B → A[K] | B[K]`, `K ∈ A only → A[K]`, `K ∈ B only → B[K]`; the
union type is embedded as the *set* of its member literals, since TypeScript
unions are sets. -/
def mergeSchemasTy (A B : List (String × String)) (k : String) :
    Option (Finset String) :=
  match lookupSchemaTy A k, lookupSchemaTy B k with
  | some a, some b => some {a, b}
  | some a, none => some {a}
  | none, some b => some {b}
  | none, none => none

/-! ## The AST (src/builder/ast.ts) and canonical compiler
(src/builder/compiler.ts) -/
/-- A literal value (`ValueNode.value`: string, number, boolean or null). -/
inductive SqlValue where
  | str (s : String)
  | num (n : Int)
  | bool (b : Bool)
  | null

/-- `TableNode`: a table reference with optional alias. -/
structure TableNode where
  name : String
  tAlias : Option String

mutual
/-- `AstNode` (src/builder/ast.ts): the closed tagged union. -/
inductive Ast where
  | column (table : Option String) (name : String)
  | star (table : Option String)
  | value (v : SqlValue)
  | raw (sql : String)
  | mapAccess (col : Ast) (key : String)
  | arrayIndex (arr : Ast) (index : Int)
  | functionCall (name : String) (args : List Ast)
  | castN (expr : Ast) (targetType : String) (doubleColon : Bool)
  | binaryOp (left : Ast) (op : String) (right : Ast)
  | andN (conditions : List Ast)
  | orN (conditions : List Ast)
  | notN (expr : Ast)
  | betweenN (expr low high : Ast)
  | inN (expr : Ast) (values : List Ast) (negated : Bool)
  | isNullN (expr : Ast) (negated : Bool)
  | parens (expr : Ast)
  | aliasN (expr : Ast) (aliasStr : String)
  | tableN (t : TableNode)
  | joinN (j : JoinNode)
  | orderByN (o : OrderByItemNode)
  | cteN (c : CteNode)
  | selectQueryN (q : SelectQueryNode)

/-- `JoinNode`: join type, target table, optional ON condition. -/
inductive JoinNode where
  | mk (jType : String) (table : TableNode) (onCond : Option Ast)

/-- `OrderByItemNode`: expression with optional `ASC` / `DESC`. -/
inductive OrderByItemNode where
  | mk (expr : Ast) (direction : Option String)

/-- `CteNode`: a named CTE wrapping a subquery. -/
inductive CteNode where
  | mk (name : String) (query : SelectQueryNode)

/-- `SelectQueryNode`: the full query structure. -/
inductive SelectQueryNode where
  | mk (ctes : List CteNode) (distinct : Bool) (selections : List Ast)
      (fromT : TableNode) (joins : List JoinNode) (whereC : List Ast)
      (groupByC : List Ast) (havingC : List Ast)
      (orderByC : List OrderByItemNode) (limit : Option Int)
end

def CteNode.name : CteNode → String
  | .mk n _ => n

def CteNode.query : CteNode → SelectQueryNode
  | .mk _ q => q

def SelectQueryNode.ctes : SelectQueryNode → List CteNode
  | .mk c _ _ _ _ _ _ _ _ _ => c

def SelectQueryNode.distinct : SelectQueryNode → Bool
  | .mk _ d _ _ _ _ _ _ _ _ => d

def SelectQueryNode.selections : SelectQueryNode → List Ast
  | .mk _ _ s _ _ _ _ _ _ _ => s

def SelectQueryNode.fromT : SelectQueryNode → TableNode
  | .mk _ _ _ f _ _ _ _ _ _ => f

def SelectQueryNode.joins : SelectQueryNode → List JoinNode
  | .mk _ _ _ _ j _ _ _ _ _ => j

def SelectQueryNode.whereC : SelectQueryNode → List Ast
  | .mk _ _ _ _ _ w _ _ _ _ => w

def SelectQueryNode.groupByC : SelectQueryNode → List Ast
  | .mk _ _ _ _ _ _ g _ _ _ => g

def SelectQueryNode.havingC : SelectQueryNode → List Ast
  | .mk _ _ _ _ _ _ _ h _ _ => h

def SelectQueryNode.orderByC : SelectQueryNode → List OrderByItemNode
  | .mk _ _ _ _ _ _ _ _ o _ => o

def SelectQueryNode.limit : SelectQueryNode → Option Int
  | .mk _ _ _ _ _ _ _ _ _ l => l

/-- `Array.prototype.join(sep)`. -/
def joinSep (sep : String) : List String → String
  | [] => ""
  | [x] => x
  | x :: xs => x ++ sep ++ joinSep sep xs

/-- `compileTable` (compiler.ts). -/
def compileTable (t : TableNode) : String :=
  match t.tAlias with
  | some a => t.name ++ " AS " ++ a
  | none => t.name

/-- `compileValue` (compiler.ts): `NULL`, single-quoted strings (no
escaping), lowercase booleans, bare numbers. -/
def compileValue : SqlValue → String
  | .null => "NULL"
  | .str s => "'" ++ s ++ "'"
  | .bool b => if b then "true" else "false"
  | .num n => toString n

mutual
/-- `compileQuery` (compiler.ts): push the clause strings in source order
and join with single spaces. -/
def compileQuery : SelectQueryNode → String
  | .mk ctes dist sels frm joins whr grp hav ord lim =>
    let parts : List String :=
      (if ctes.length > 0 then
        ["WITH " ++ joinSep ", " (compileCtes ctes)] else [])
      ++ [(if dist then "SELECT DISTINCT" else "SELECT") ++ " " ++
          joinSep ", " (compileNodes sels)]
      ++ ["FROM " ++ compileTable frm]
      ++ compileJoins joins
      ++ (if whr.length > 0 then
          ["WHERE " ++ joinSep " AND " (compileNodes whr)] else [])
      ++ (if grp.length > 0 then
          ["GROUP BY " ++ joinSep ", " (compileNodes grp)] else [])
      ++ (if hav.length > 0 then
          ["HAVING " ++ joinSep " AND " (compileNodes hav)] else [])
      ++ (if ord.length > 0 then
          ["ORDER BY " ++ joinSep ", " (compileOrderByItems ord)] else [])
      ++ (match lim with | some n => ["LIMIT " ++ toString n] | none => [])
    joinSep " " parts

/-- `compileNode` (compiler.ts): per-node rendering. -/
def compileNode : Ast → String
  | .column t n =>
    match t with
    | some tb => tb ++ "." ++ n
    | none => n
  | .star t =>
    match t with
    | some tb => tb ++ ".*"
    | none => "*"
  | .value v => compileValue v
  | .raw s => s
  | .mapAccess col key => compileNode col ++ "['" ++ key ++ "']"
  | .arrayIndex arr idx => compileNode arr ++ "[" ++ toString idx ++ "]"
  | .functionCall n args =>
    if n = "countDistinct" then
      "count(DISTINCT " ++ joinSep ", " (compileNodes args) ++ ")"
    else n ++ "(" ++ joinSep ", " (compileNodes args) ++ ")"
  | .castN e ty dc =>
    if dc then compileNode e ++ "::" ++ ty
    else "CAST(" ++ compileNode e ++ " AS " ++ ty ++ ")"
  | .binaryOp l op r => compileNode l ++ " " ++ op ++ " " ++ compileNode r
  | .andN cs => joinSep " AND " (compileNodes cs)
  | .orN cs => "(" ++ joinSep " OR " (compileNodes cs) ++ ")"
  | .notN e => "NOT " ++ compileNode e
  | .betweenN e lo hi =>
    compileNode e ++ " BETWEEN " ++ compileNode lo ++ " AND " ++ compileNode hi
  | .inN e vs neg =>
    compileNode e ++ " " ++ (if neg then "NOT IN" else "IN") ++ " (" ++
      joinSep ", " (compileNodes vs) ++ ")"
  | .isNullN e neg =>
    compileNode e ++ " IS " ++ (if neg then "NOT " else "") ++ "NULL"
  | .parens e => "(" ++ compileNode e ++ ")"
  | .aliasN e a => compileNode e ++ " AS " ++ a
  | .tableN t => compileTable t
  | .joinN j => compileJoin j
  | .orderByN o => compileOrderByItem o
  | .cteN c => compileCte c
  | .selectQueryN q => "(" ++ compileQuery q ++ ")"

def compileNodes : List Ast → List String
  | [] => []
  | n :: rest => compileNode n :: compileNodes rest

/-- `compileJoin` (compiler.ts). -/
def compileJoin : JoinNode → String
  | .mk ty tbl onC =>
    ty ++ " JOIN " ++ compileTable tbl ++
      (match onC with
       | some c => " ON " ++ compileNode c
       | none => "")

def compileJoins : List JoinNode → List String
  | [] => []
  | j :: rest => compileJoin j :: compileJoins rest

/-- `compileOrderByItem` (compiler.ts). -/
def compileOrderByItem : OrderByItemNode → String
  | .mk e dir =>
    compileNode e ++
      (match dir with
       | some d => " " ++ d
       | none => "")

def compileOrderByItems : List OrderByItemNode → List String
  | [] => []
  | o :: rest => compileOrderByItem o :: compileOrderByItems rest

/-- `compileCte` (compiler.ts): `<name> AS (<subquery>)`. -/
def compileCte : CteNode → String
  | .mk n q => n ++ " AS (" ++ compileQuery q ++ ")"

def compileCtes : List CteNode → List String
  | [] => []
  | c :: rest => compileCte c :: compileCtes rest
end

/-! ## Claim C2: canonical serialization order -/
def JoinNode.jType : JoinNode → String
  | .mk t _ _ => t

def JoinNode.table : JoinNode → TableNode
  | .mk _ t _ => t

def JoinNode.onCond : JoinNode → Option Ast
  | .mk _ _ o => o

def OrderByItemNode.expr : OrderByItemNode → Ast
  | .mk e _ => e

def OrderByItemNode.direction : OrderByItemNode → Option String
  | .mk _ d => d

/-- Modelled from the spec (§4.5): one JOIN clause renders as
`<TYPE> JOIN <table>[ AS <alias>][ ON <condition>]`. -/
def specJoin (j : JoinNode) : String :=
  j.jType ++ " JOIN " ++ j.table.name ++
    (match j.table.tAlias with
     | some a => " AS " ++ a
     | none => "") ++
    (match j.onCond with
     | some c => " ON " ++ compileNode c
     | none => "")

/-- Modelled from the spec (§4.5): one ORDER BY item renders as
`<e>[ ASC|DESC]`. -/
def specOrderBy (o : OrderByItemNode) : String :=
  compileNode o.expr ++
    (match o.direction with
     | some d => " " ++ d
     | none => "")

/-- Modelled from the spec (§4.5): the optional clause texts of a query, in
the prescribed order.  `none` marks an absent clause. -/
def specClauses (q : SelectQueryNode) : List (Option String) :=
  [if q.ctes.isEmpty then none else
    some ("WITH " ++ joinSep ", "
      (q.ctes.map (fun c => c.name ++ " AS (" ++ compileQuery c.query ++ ")"))),
   some ((if q.distinct then "SELECT DISTINCT" else "SELECT") ++ " " ++
     joinSep ", " (q.selections.map compileNode)),
   some ("FROM " ++ q.fromT.name ++
     (match q.fromT.tAlias with
      | some a => " AS " ++ a
      | none => ""))]
  ++ q.joins.map (fun j => some (specJoin j))
  ++ [if q.whereC.isEmpty then none else
      some ("WHERE " ++ joinSep " AND " (q.whereC.map compileNode)),
     if q.groupByC.isEmpty then none else
      some ("GROUP BY " ++ joinSep ", " (q.groupByC.map compileNode)),
     if q.havingC.isEmpty then none else
      some ("HAVING " ++ joinSep " AND " (q.havingC.map compileNode)),
     if q.orderByC.isEmpty then none else
      some ("ORDER BY " ++ joinSep ", " (q.orderByC.map specOrderBy)),
     q.limit.map (fun n => "LIMIT " ++ toString n)]

/-- Modelled from the spec (§4.5): the present clauses joined by single
spaces. -/
def specSerialize (q : SelectQueryNode) : String :=
  joinSep " " ((specClauses q).filterMap id)

/-! ## Claim C9: `toNode` string coercion in the expression builder
(src/builder/expression-builder.ts) -/
/-- The argument union `Expr<any> | string | number | boolean | null`
accepted by the comparison helpers. -/
inductive BuilderArg where
  | expr (e : Ast)
  | str (s : String)
  | num (n : Int)
  | bool (b : Bool)
  | null

/-- The identifier test `/^[a-zA-Z_][a-zA-Z0-9_.]*$/` used by `toNode`. -/
def matchesIdentRegex (s : String) : Bool :=
  match s.data with
  | [] => false
  | c :: rest =>
    (c.isAlpha || c = '_') &&
      rest.all (fun d => d.isAlphanum || d = '_' || d = '.')

/-- JS `String.prototype.split('.')` on characters. -/
def splitOnDot : List Char → List (List Char)
  | [] => [[]]
  | c :: r =>
    match splitOnDot r with
    | [] => [[]]
    | p :: ps => if c = '.' then [] :: p :: ps else (c :: p) :: ps

/-- `toNode` (src/builder/expression-builder.ts): identifier-looking strings
become `Column` nodes (qualified when `split('.')` has exactly two parts),
`*` becomes `Star`, anything else a string `Value`. -/
def toNode : BuilderArg → Ast
  | .expr e => e
  | .str s =>
    if matchesIdentRegex s then
      match splitOnDot s.data with
      | [a, b] => .column (some a.asString) b.asString
      | _ => .column none s
    else if s = "*" then .star none
    else .value (.str s)
  | .num n => .value (.num n)
  | .bool b => .value (.bool b)
  | .null => .value .null

/-- `ExpressionBuilder.eq`. -/
def ebEq (l : Ast) (r : BuilderArg) : Ast := .binaryOp l "=" (toNode r)

/-- `ExpressionBuilder.neq`. -/
def ebNeq (l : Ast) (r : BuilderArg) : Ast := .binaryOp l "!=" (toNode r)

/-- `ExpressionBuilder.gt`. -/
def ebGt (l : Ast) (r : BuilderArg) : Ast := .binaryOp l ">" (toNode r)

/-- `ExpressionBuilder.gte`. -/
def ebGte (l : Ast) (r : BuilderArg) : Ast := .binaryOp l ">=" (toNode r)

/-- `ExpressionBuilder.lt`. -/
def ebLt (l : Ast) (r : BuilderArg) : Ast := .binaryOp l "<" (toNode r)

/-- `ExpressionBuilder.lte`. -/
def ebLte (l : Ast) (r : BuilderArg) : Ast := .binaryOp l "<=" (toNode r)

/-- `ExpressionBuilder.between`. -/
def ebBetween (e : Ast) (lo hi : BuilderArg) : Ast :=
  .betweenN e (toNode lo) (toNode hi)

/-- `ExpressionBuilder.inList`. -/
def ebInList (e : Ast) (vs : List BuilderArg) : Ast :=
  .inN e (vs.map toNode) false

/-- `ExpressionBuilder.notInList`. -/
def ebNotInList (e : Ast) (vs : List BuilderArg) : Ast :=
  .inN e (vs.map toNode) true

/-! ## Claim C10: CTE hoisting in `CdpQueryCreator.with` (src/builder/cdp.ts) -/
/-- The capture performed by `with()`:
`query: { ...builder.$node, ctes: [] }` — the callback's CTE list is
discarded from the captured subquery. -/
def clearCtes : SelectQueryNode → SelectQueryNode
  | .mk _ d s f j w g h o l => .mk [] d s f j w g h o l

/-- `CdpQueryCreator.with(name, callback)` acting on the accumulated CTE
chain: the callback's resulting query node `built` is captured with an empty
`ctes` list and the chain gains exactly that one CTE. -/
def cdpWith (outer : List CteNode) (name : String)
    (built : SelectQueryNode) : List CteNode :=
  outer ++ [CteNode.mk name (clearCtes built)]

/-! ## Claim C4: ABI-aware parameter resolution (src/builder/abi-types.ts) -/
/-- `AbiParameter`: declared Solidity type, optional name, optional tuple
components. -/
inductive AbiParam where
  | mk (declaredType : String) (pname : Option String)
      (components : Option (List AbiParam))

def AbiParam.ty : AbiParam → String
  | .mk t _ _ => t

def AbiParam.name? : AbiParam → Option String
  | .mk _ n _ => n

def AbiParam.comps : AbiParam → Option (List AbiParam)
  | .mk _ _ c => c

/-- An ABI item: only events matter; everything else is passthrough. -/
inductive AbiItem where
  | event (name : String) (inputs : List AbiParam)
  | nonEvent

mutual
/-- `FormatParamType`: tuples render as `(subtypes)` with the array suffix
preserved; otherwise the declared type itself. -/
def formatParamType : AbiParam → String
  | .mk ty _ comps =>
    match comps with
    | some c =>
      if "tuple".data.isPrefixOf ty.data then
        "(" ++ joinParamTypes c "" ++ ")" ++ (ty.data.drop 5).asString
      else ty
    | none => ty

/-- `JoinParamTypes`: comma-join the formatted parameter types, with an
accumulator that starts empty. -/
def joinParamTypes : List AbiParam → String → String
  | [], result => result
  | h :: t, result =>
    if result = "" then joinParamTypes t (formatParamType h)
    else joinParamTypes t (result ++ "," ++ formatParamType h)
end

/-- `CdpEventSignature<E>`: `name(type1,type2,...)`. -/
def cdpEventSignature (name : String) (inputs : List AbiParam) : String :=
  name ++ "(" ++ joinParamTypes inputs "" ++ ")"

/-- `ExtractEvents<A>`. -/
def extractEvents (abi : List AbiItem) : List (String × List AbiParam) :=
  abi.filterMap fun
    | .event n i => some (n, i)
    | .nonEvent => none

/-- `FindEventBySignature<A, Sig>`.  The source's distributive conditional
returns the union of all matching events; signatures are unique in practice,
so the union collapses to the single match, embedded as the first match. -/
def findEventBySignature (abi : List AbiItem) (sig : String) :
    Option (String × List AbiParam) :=
  (extractEvents abi).find? (fun e => cdpEventSignature e.1 e.2 = sig)

/-- `FindParamByName`. -/
def findParamByName : List AbiParam → String → Option AbiParam
  | [], _ => none
  | h :: t, k => if h.name? = some k then some h else findParamByName t k

/-- `SolidityTypeToCdp<T>`: branch order mirrors the source. -/
def solidityTypeToCdp (t : String) : TsType :=
  if t = "address" then .hexString
  else if t = "bool" then .boolean
  else if "uint".data.isPrefixOf t.data then .numericString
  else if "int".data.isPrefixOf t.data then .numericString
  else if t = "string" then .str
  else if "bytes".data.isPrefixOf t.data then .hexString
  else .str

/-- `EventParamType<A, Sig, Key>`: variant when the event or the key is not
found, otherwise the parameter's mapped type. -/
def eventParamType (abi : List AbiItem) (sig key : String) : TsType :=
  match findEventBySignature abi sig with
  | none => variantT
  | some e =>
    match findParamByName e.2 key with
    | none => variantT
    | some p => solidityTypeToCdp p.ty

/-- `ResolveMapType<BaseType, A, Sig, Key>`: the unnarrowed signature is
embedded as `none`; `A extends readonly []` as the empty list. -/
def resolveMapType (base : TsType) (abi : List AbiItem)
    (sig : Option String) (key : String) : TsType :=
  match sig with
  | none =>
    match base with
    | .recordT v => v
    | _ => .unknown
  | some s =>
    match abi with
    | [] =>
      match base with
      | .recordT v => v
      | _ => .unknown
    | _ => eventParamType abi s key

/-! ## Theorems -/

theorem splitFirstL_eq {pat s a b : List Char}
    (h : splitFirstL pat s = some (a, b)) : s = a ++ pat ++ b := by
  induction s generalizing a with
  | nil =>
    unfold splitFirstL at h
    split at h
    · next hp => simp_all
    · simp at h
  | cons c r ih =>
    unfold splitFirstL at h
    split at h
    · next hp =>
      have hpre : pat <+: (c :: r) := by
        simpa [ List.isPrefixOf_iff_prefix] using hp
      obtain ⟨rest, hrest⟩ := hpre
      simp only [Option.some.injEq, Prod.mk.injEq] at h
      obtain ⟨rfl, rfl⟩ := h
      conv_lhs => rw [← hrest]
      simp [← hrest]
    · revert h
      split
      · next a' b' hsp =>
        intro h
        simp only [Option.some.injEq, Prod.mk.injEq] at h
        obtain ⟨rfl, rfl⟩ := h
        simp [ih hsp]
      · intro h; exact absurd h (by simp)

theorem splitFirstL_length {pat s a b : List Char} (hpat : pat ≠ [])
    (h : splitFirstL pat s = some (a, b)) : b.length < s.length := by
  have := splitFirstL_eq h
  subst this
  have : 0 < pat.length := List.length_pos.mpr hpat
  simp only [List.length_append]
  omega

theorem trimStartL_length_le (s : List Char) : (trimStartL s).length ≤ s.length := by
  induction s with
  | nil => simp [trimStartL]
  | cons c r ih =>
    simp only [trimStartL]
    split
    · exact Nat.le_trans ih (by simp)
    · simp

theorem trimL_length_le (s : List Char) : (trimL s).length ≤ s.length := by
  have h1 : (trimEndL s).length ≤ s.length := by
    simpa [trimEndL] using trimStartL_length_le s.reverse
  exact Nat.le_trans (trimStartL_length_le _) h1

/-! ## Character and trimming lemmas -/
theorem toNat_ofNat_of_valid {n : ℕ} (h : Nat.isValidChar n) :
    (Char.ofNat n).toNat = n := by
  simp only [Char.ofNat, dif_pos h, Char.ofNatAux, Char.toNat, UInt32.toNat]
  simp [BitVec.toNat_ofNatLt]

theorem toLower_toLower (c : Char) :
    Char.toLower (Char.toLower c) = Char.toLower c := by
  unfold Char.toLower
  by_cases h : c.toNat ≥ 65 ∧ c.toNat ≤ 90
  · rw [if_pos h]
    have hv : Nat.isValidChar (c.toNat + 32) := by left; omega
    have ht : (Char.ofNat (c.toNat + 32)).toNat = c.toNat + 32 :=
      toNat_ofNat_of_valid hv
    rw [if_neg]
    omega
  · rw [if_neg h, if_neg h]

theorem wsToSpace_wsToSpace (c : Char) : wsToSpace (wsToSpace c) = wsToSpace c := by
  by_cases h : (c = '\n' || c = '\r' || c = '\t') = true
  · have h1 : wsToSpace c = ' ' := by simp [wsToSpace, h]
    rw [h1]
    decide
  · have h1 : wsToSpace c = c := by simp [wsToSpace]; simp at h; simp [h]
    rw [h1, h1]

theorem map_eq_self_of_fixed {f : Char → Char} {l : List Char}
    (h : ∀ c ∈ l, f c = c) : l.map f = l := by
  induction l with
  | nil => rfl
  | cons c r ih =>
    simp only [List.map_cons, h c (by simp), List.cons.injEq, true_and]
    exact ih (fun d hd => h d (by simp [hd]))

theorem trimStartL_suffix (l : List Char) : trimStartL l <:+ l := by
  induction l with
  | nil => simp [trimStartL]
  | cons c r ih =>
    simp only [trimStartL]
    split
    · exact ih.trans (List.suffix_cons c r)
    · exact List.suffix_refl _

theorem prefix_trimEndL (l : List Char) : trimEndL l <+: l := by
  have h := trimStartL_suffix l.reverse
  rw [← List.reverse_prefix] at h
  simpa [trimEndL] using h

theorem infix_trimL (l : List Char) : trimL l <:+: l :=
  (trimStartL_suffix (trimEndL l)).isInfix.trans (prefix_trimEndL l).isInfix

theorem infix_stripSemicolonL (l : List Char) : stripSemicolonL l <:+: l := by
  unfold stripSemicolonL
  split
  · exact (infix_trimL _).trans (List.dropLast_prefix l).isInfix
  · exact List.infix_refl _

theorem infix_normalizeL (x : List Char) :
    normalizeL x <:+: collapseWsL (x.map Char.toLower) :=
  (infix_stripSemicolonL _).trans (infix_trimL _)

theorem squeezeSpaces_subset (l : List Char) : squeezeSpaces l ⊆ l := by
  induction l with
  | nil => simp [squeezeSpaces]
  | cons c r ih =>
    cases r with
    | nil => simp [squeezeSpaces]
    | cons b t =>
      simp only [squeezeSpaces]
      split
      · exact fun d hd => List.mem_cons_of_mem c (ih hd)
      · intro d hd
        rcases List.mem_cons.mp hd with h | h
        · simp [h]
        · exact List.mem_cons_of_mem c (ih h)

theorem noTwoSpacesB_iff (l : List Char) :
    noTwoSpacesB l = true ↔ NoTwoSpaces l := by
  induction l with
  | nil => simp [noTwoSpacesB, NoTwoSpaces]
  | cons c r ih =>
    cases r with
    | nil => simp [noTwoSpacesB, NoTwoSpaces]
    | cons b t =>
      rw [NoTwoSpaces, List.chain'_cons, ← NoTwoSpaces, ← ih]
      simp only [noTwoSpacesB, Bool.and_eq_true, Bool.not_eq_eq_eq_not,
        Bool.not_true, Bool.and_eq_false_iff]
      constructor
      · rintro ⟨h1, h2⟩
        refine ⟨?_, h2⟩
        intro hcon
        simp [hcon.1, hcon.2] at h1
      · rintro ⟨h1, h2⟩
        refine ⟨?_, h2⟩
        by_cases hc : c = ' '
        · by_cases hb : b = ' '
          · exact absurd ⟨hc, hb⟩ h1
          · simp [hb]
        · simp [hc]

theorem head?_squeezeSpaces (l : List Char) :
    (squeezeSpaces l).head? = l.head? := by
  induction l with
  | nil => simp [squeezeSpaces]
  | cons c r ih =>
    cases r with
    | nil => simp [squeezeSpaces]
    | cons b t =>
      simp only [squeezeSpaces]
      split
      · next hcb =>
        simp only [Bool.and_eq_true, decide_eq_true_eq] at hcb
        rw [ih]
        simp [hcb.1, hcb.2]
      · simp

theorem squeezeSpaces_chain (l : List Char) : NoTwoSpaces (squeezeSpaces l) := by
  induction l with
  | nil => simp [squeezeSpaces, NoTwoSpaces]
  | cons c r ih =>
    cases r with
    | nil => simp [squeezeSpaces, NoTwoSpaces]
    | cons b t =>
      simp only [squeezeSpaces]
      split
      · exact ih
      · next hcb =>
        rcases ht : squeezeSpaces (b :: t) with _ | ⟨d, u⟩
        · simp [NoTwoSpaces]
        · have hd : d = b := by
            have := head?_squeezeSpaces (b :: t)
            rw [ht] at this
            exact Eq.symm (by simpa using this.symm)
          have hchain : NoTwoSpaces (d :: u) := by rw [← ht]; exact ih
          refine List.chain'_cons.mpr ⟨?_, hchain⟩
          intro hcontra
          rw [hd] at hcontra
          simp [hcontra.1, hcontra.2] at hcb

theorem squeezeSpaces_eq_self {l : List Char} (h : NoTwoSpaces l) :
    squeezeSpaces l = l := by
  induction l with
  | nil => rfl
  | cons c r ih =>
    cases r with
    | nil => simp [squeezeSpaces]
    | cons b t =>
      rcases List.chain'_cons.mp h with ⟨hcb, hrest⟩
      simp only [squeezeSpaces]
      rw [if_neg (by simpa using hcb)]
      simp only [List.cons.injEq, true_and]
      exact ih hrest

theorem trimStartL_head?_not_ws {l : List Char} {c : Char}
    (h : (trimStartL l).head? = some c) : isWsChar c = false := by
  induction l with
  | nil => simp [trimStartL] at h
  | cons d r ih =>
    simp only [trimStartL] at h
    by_cases hd : isWsChar d = true
    · rw [if_pos hd] at h; exact ih h
    · rw [if_neg hd] at h
      simp only [List.head?_cons, Option.some.injEq] at h
      subst h
      simpa using hd

theorem trimStartL_eq_self {l : List Char}
    (h : ∀ c, l.head? = some c → isWsChar c = false) : trimStartL l = l := by
  cases l with
  | nil => rfl
  | cons c r =>
    simp only [trimStartL]
    rw [if_neg]
    simp [h c rfl]

theorem trimEndL_eq_self {l : List Char}
    (h : ∀ c, l.getLast? = some c → isWsChar c = false) : trimEndL l = l := by
  unfold trimEndL
  rw [trimStartL_eq_self, List.reverse_reverse]
  intro c hc
  rw [List.head?_reverse] at hc
  exact h c hc

theorem getLast?_trimStartL {l : List Char} {c : Char}
    (h : (trimStartL l).getLast? = some c) : l.getLast? = some c := by
  obtain ⟨pre, hpre⟩ := trimStartL_suffix l
  have hne : trimStartL l ≠ [] := by
    intro hnil; rw [hnil] at h; simp at h
  rw [← hpre, List.getLast?_append_of_ne_nil pre hne]
  exact h

theorem getLast?_trimEndL_not_ws {l : List Char} {c : Char}
    (h : (trimEndL l).getLast? = some c) : isWsChar c = false := by
  unfold trimEndL at h
  rw [List.getLast?_reverse] at h
  exact trimStartL_head?_not_ws h

theorem trimL_head?_not_ws {l : List Char} {c : Char}
    (h : (trimL l).head? = some c) : isWsChar c = false :=
  trimStartL_head?_not_ws h

theorem trimL_getLast?_not_ws {l : List Char} {c : Char}
    (h : (trimL l).getLast? = some c) : isWsChar c = false := by
  unfold trimL at h
  exact getLast?_trimEndL_not_ws (getLast?_trimStartL h)

theorem trimL_idem (l : List Char) : trimL (trimL l) = trimL l := by
  have h1 : trimEndL (trimL l) = trimL l := by
    apply trimEndL_eq_self
    intro c hc
    exact trimL_getLast?_not_ws hc
  have h2 : trimStartL (trimL l) = trimL l := by
    apply trimStartL_eq_self
    intro c hc
    exact trimL_head?_not_ws hc
  show trimStartL (trimEndL (trimL l)) = trimL l
  rw [h1, h2]

theorem trimL_stripSemicolonL (w : List Char) :
    trimL (stripSemicolonL (trimL w)) = stripSemicolonL (trimL w) := by
  unfold stripSemicolonL
  split
  · exact trimL_idem _
  · exact trimL_idem _

theorem trimL_normalizeL (x : List Char) :
    trimL (normalizeL x) = normalizeL x := trimL_stripSemicolonL _

/-! ## Fixed-point facts about normalized output -/
theorem mem_collapseWsL_exists {c : Char} {y : List Char}
    (h : c ∈ collapseWsL y) : ∃ d ∈ y, c = wsToSpace d := by
  have h1 := squeezeSpaces_subset _ h
  obtain ⟨d, hd, hc⟩ := List.mem_map.mp h1
  exact ⟨d, hd, hc.symm⟩

theorem mem_normalizeL_fixed_wsToSpace {x : List Char} {c : Char}
    (h : c ∈ normalizeL x) : wsToSpace c = c := by
  have hsub := ((infix_normalizeL x).sublist.subset) h
  obtain ⟨d, _, rfl⟩ := mem_collapseWsL_exists hsub
  exact wsToSpace_wsToSpace d

theorem mem_normalizeL_fixed_toLower {x : List Char} {c : Char}
    (h : c ∈ normalizeL x) : Char.toLower c = c := by
  have hsub := ((infix_normalizeL x).sublist.subset) h
  obtain ⟨d, hd, rfl⟩ := mem_collapseWsL_exists hsub
  obtain ⟨e, _, rfl⟩ := List.mem_map.mp hd
  by_cases hw : (Char.toLower e = '\n' || Char.toLower e = '\r' ||
      Char.toLower e = '\t') = true
  · have : wsToSpace (Char.toLower e) = ' ' := by simp [wsToSpace, hw]
    rw [this]
    decide
  · have : wsToSpace (Char.toLower e) = Char.toLower e := by
      simp [wsToSpace]
      simp at hw
      simp [hw]
    rw [this]
    exact toLower_toLower e

theorem chain_normalizeL (x : List Char) : NoTwoSpaces (normalizeL x) :=
  List.Chain'.infix (squeezeSpaces_chain _) (infix_normalizeL x)

theorem collapseWsL_normalizeL (x : List Char) :
    collapseWsL (normalizeL x) = normalizeL x := by
  unfold collapseWsL
  rw [map_eq_self_of_fixed (fun c hc => mem_normalizeL_fixed_wsToSpace hc)]
  exact squeezeSpaces_eq_self (chain_normalizeL x)

theorem map_toLower_normalizeL (x : List Char) :
    (normalizeL x).map Char.toLower = normalizeL x :=
  map_eq_self_of_fixed (fun c hc => mem_normalizeL_fixed_toLower hc)

/-- Normalization is idempotent exactly when its output does not still end
with a semicolon (the source strips a single trailing `;`). -/
theorem normalizeL_idem {x : List Char}
    (h : (normalizeL x).getLast? ≠ some ';') :
    normalizeL (normalizeL x) = normalizeL x := by
  conv_lhs => rw [normalizeL]
  rw [map_toLower_normalizeL, collapseWsL_normalizeL, trimL_normalizeL]
  unfold stripSemicolonL
  rw [if_neg h]

/-! ## Claim C8: idempotence of Normalize -/
/-- **C8, counterexample.**  The claim asserts
`Normalize(Normalize(s)) = Normalize(s)` for all `s`, *including inputs
ending in multiple semicolons*.  `StripSemicolon` removes only a single
trailing `;`, so `Normalize ";;" = ";"` while a second pass yields `""`. -/
theorem c8_normalize_not_idempotent_cex :
    normalizeStr ";;" = ";" ∧ normalizeStr (normalizeStr ";;") = "" ∧
    normalizeStr (normalizeStr ";;") ≠ normalizeStr ";;" := by
  refine ⟨?_, ?_, ?_⟩ <;> decide

/-- **C8 (amended).**  Normalize (lowercase, collapse whitespace, trim, strip
a single trailing semicolon) is idempotent on every input whose normalized
form does not itself end in `;`; an input ending in `n ≥ 2` semicolons keeps
`n - 1` of them after one pass, so it is not a fixed point. -/
theorem c8_normalize_idem_amended (s : String)
    (h : (normalizeStr s).data.getLast? ≠ some ';') :
    normalizeStr (normalizeStr s) = normalizeStr s := by
  show (normalizeL (normalizeL s.data)).asString = (normalizeL s.data).asString
  rw [normalizeL_idem h]

/-- Witness for `c8_normalize_idem_amended` at the concrete input
`"SELECT 1; "`. -/
theorem c8_normalize_idem_amended_witness :
    (normalizeStr "SELECT 1; ").data.getLast? ≠ some ';' ∧
    normalizeStr (normalizeStr "SELECT 1; ") = normalizeStr "SELECT 1; " :=
  ⟨by decide, c8_normalize_idem_amended "SELECT 1; " (by decide)⟩

/-! ## Claim C3: JOIN schema merging (theorems) -/

/-- **C3.**  The merged join schema contains exactly the column names of
either schema; a column in only one schema keeps that schema's type, a
column in both gets the union of the two types, and merging is commutative
as a map to sets of (name, type) pairs. -/
theorem c3_merge_schemas (A B : List (String × String)) (k : String) :
    ((mergeSchemasTy A B k).isSome ↔
      (lookupSchemaTy A k).isSome ∨ (lookupSchemaTy B k).isSome)
    ∧ (∀ a, lookupSchemaTy A k = some a → lookupSchemaTy B k = none →
        mergeSchemasTy A B k = some {a})
    ∧ (∀ b, lookupSchemaTy A k = none → lookupSchemaTy B k = some b →
        mergeSchemasTy A B k = some {b})
    ∧ (∀ a b, lookupSchemaTy A k = some a → lookupSchemaTy B k = some b →
        mergeSchemasTy A B k = some {a, b})
    ∧ mergeSchemasTy A B k = mergeSchemasTy B A k := by
  rcases ha : lookupSchemaTy A k with _ | a <;>
    rcases hb : lookupSchemaTy B k with _ | b <;>
    simp [mergeSchemasTy, ha, hb, Finset.pair_comm]

/-- Witness for `c3_merge_schemas` on two concrete two-column schemas,
covering the both-sides, one-side and commutativity conjuncts. -/
theorem c3_merge_schemas_witness :
    mergeSchemasTy [("x", "uint64"), ("z", "Hex")] [("x", "Bool"), ("y", "String")]
      "x" = some {"uint64", "Bool"} ∧
    mergeSchemasTy [("x", "uint64"), ("z", "Hex")] [("x", "Bool"), ("y", "String")]
      "z" = some {"Hex"} ∧
    mergeSchemasTy [("x", "uint64"), ("z", "Hex")] [("x", "Bool"), ("y", "String")]
      "x" =
    mergeSchemasTy [("x", "Bool"), ("y", "String")] [("x", "uint64"), ("z", "Hex")]
      "x" := by
  refine ⟨?_, ?_, ?_⟩
  · exact (c3_merge_schemas [("x", "uint64"), ("z", "Hex")]
      [("x", "Bool"), ("y", "String")] "x").2.2.2.1 "uint64" "Bool"
      (by decide) (by decide)
  · exact (c3_merge_schemas [("x", "uint64"), ("z", "Hex")]
      [("x", "Bool"), ("y", "String")] "z").2.1 "Hex" (by decide) (by decide)
  · exact (c3_merge_schemas [("x", "uint64"), ("z", "Hex")]
      [("x", "Bool"), ("y", "String")] "x").2.2.2.2

/-! ## Claim C5: double-colon casts on the text path -/
theorem splitFirstL_none_of_not_mem {pat s : List Char} {c : Char}
    (hc : c ∈ pat) (hs : c ∉ s) : splitFirstL pat s = none := by
  cases h : splitFirstL pat s with
  | none => rfl
  | some ab =>
    obtain ⟨a, b⟩ := ab
    have heq := splitFirstL_eq h
    subst heq
    exact absurd (by simp [hc] : c ∈ a ++ pat ++ b) hs

theorem mapAccessSplit_none {p0 : Char} {prest suf e : List Char}
    (h : p0 ∉ e) : mapAccessSplit p0 prest suf e = none := by
  have hsplit : splitFirstL (p0 :: prest) e = none :=
    splitFirstL_none_of_not_mem (by simp) h
  show mapAccessSplitFuel p0 prest suf (e.length + 1) e = none
  simp [mapAccessSplitFuel, hsplit]

/-- Expressions made of plain identifier text (no dot, parenthesis or
bracket) that are not schema columns fall through every rule of
`ResolveExpression` to the `unknown` fallback. -/
theorem resolveExpressionL_unknown_of_plain {e : List Char} {sch : USchema}
    (hkey : lookupUSchema sch e = none)
    (hdot : ('.' : Char) ∉ e) (hpar : ('(' : Char) ∉ e)
    (hbr : ('[' : Char) ∉ e) :
    resolveExpressionL e sch = .unknown := by
  have h1 : splitFirstL ".".data e = none :=
    splitFirstL_none_of_not_mem (by simp) hdot
  have h2 : mapAccessSplit '[' "'".data "']".data e = none :=
    mapAccessSplit_none hbr
  have h3 : mapAccessSplit '[' "\"".data "\"]".data e = none :=
    mapAccessSplit_none hbr
  have hc : ∀ pre : List Char, '(' ∈ pre → ¬ pre.isPrefixOf e = true := by
    intro pre hpre hp
    exact hpar ((List.isPrefixOf_iff_prefix.mp hp).sublist.subset hpre)
  show resolveExprFuel sch (e.length + 1) e = .unknown
  simp only [resolveExprFuel, hkey, h1, h2, h3]
  rw [if_neg (fun hcond => hc _ (by decide) hcond.1)]
  rw [if_neg (fun hcond => hc _ (by decide) hcond.1)]
  rw [if_neg (fun hcond => hc _ (by decide) hcond.1)]
  rw [if_neg (fun hcond => hc _ (by decide) hcond.1)]
  rw [if_neg (fun hcond => hc _ (by decide) hcond.1)]
  rw [if_neg (fun hcond => hc _ (by decide) hcond.1)]

/-- **C5, counterexample.**  The claim asserts `<expr>::<type>` resolves like
`cast(<expr> as <type>)` on the text path; in fact `ResolveExpression` has no
double-colon branch, so `value::uint256` resolves to `unknown` while
`cast(value as uint256)` resolves to `${number}` via the type mapping. -/
theorem c5_double_colon_cex :
    resolveExpression "value::uint256" transfersSchema = .unknown ∧
    resolveExpression "cast(value as uint256)" transfersSchema =
      .numericString ∧
    resolveExpression "value::uint256" transfersSchema ≠
      resolveExpression "cast(value as uint256)" transfersSchema := by
  have h1 : resolveExpression "value::uint256" transfersSchema = .unknown := rfl
  have h2 : resolveExpression "cast(value as uint256)" transfersSchema =
      .numericString := rfl
  refine ⟨h1, h2, ?_⟩
  rw [h1, h2]
  exact fun h => TsType.noConfusion h

/-- **C5 (amended).**  The text-path expression resolver has no double-colon
rule: a `<expr>::<type>` expression whose text contains no dot, parenthesis
or bracket and is not itself a schema column resolves to `unknown` — the
cast type-name mapping is not consulted (the builder's `castAs` is the only
double-colon support). -/
theorem c5_double_colon_amended (x t : String) (sch : List (String × String))
    (hkey : lookupUSchema (asUSchema sch) (x ++ "::" ++ t).data = none)
    (hdot : ('.' : Char) ∉ (x ++ "::" ++ t).data)
    (hpar : ('(' : Char) ∉ (x ++ "::" ++ t).data)
    (hbr : ('[' : Char) ∉ (x ++ "::" ++ t).data) :
    resolveExpression (x ++ "::" ++ t) sch = .unknown :=
  resolveExpressionL_unknown_of_plain hkey hdot hpar hbr

/-- Witness for `c5_double_colon_amended` at `value::uint256` against the
transfers schema. -/
theorem c5_double_colon_amended_witness :
    lookupUSchema (asUSchema transfersSchema)
      ("value" ++ "::" ++ "uint256").data = none ∧
    resolveExpression ("value" ++ "::" ++ "uint256") transfersSchema =
      .unknown :=
  ⟨by decide, c5_double_colon_amended "value" "uint256" transfersSchema
    (by decide) (by decide) (by decide) (by decide)⟩

/-! ## Claim C7: default alias inference (`InferDefaultAlias`) -/
theorem splitFirstL_single_isSome {c : Char} {s : List Char} (h : c ∈ s) :
    (splitFirstL [c] s).isSome := by
  induction s with
  | nil => simp at h
  | cons d r ih =>
    unfold splitFirstL
    by_cases hd : [c].isPrefixOf (d :: r)
    · simp [hd]
    · rw [if_neg hd]
      have hcr : c ∈ r := by
        rcases List.mem_cons.mp h with h1 | h1
        · exfalso
          apply hd
          subst h1
          simp [List.isPrefixOf]
        · exact h1
      rcases hsp : splitFirstL [c] r with _ | ab
      · rw [hsp] at ih
        exact absurd (ih hcr) (by simp)
      · obtain ⟨a, b⟩ := ab
        simp

theorem splitFirstL_single_first {c : Char} (a b : List Char) (ha : c ∉ a) :
    splitFirstL [c] (a ++ c :: b) = some (a, b) := by
  induction a with
  | nil => simp [splitFirstL, List.isPrefixOf]
  | cons d r ih =>
    have hdc : ¬ [c].isPrefixOf (d :: (r ++ c :: b)) := by
      intro hp
      have : c = d := by simpa [List.isPrefixOf] using hp
      exact ha (by simp [this])
    rw [List.cons_append]
    simp only [splitFirstL]
    rw [if_neg hdc, ih (fun hc => ha (by simp [hc]))]

/-- **C7, counterexample.**  The claim says a qualified expression such as
`e.parameters['from']` gets its qualifier stripped; the source checks for
`[` / `(` *before* qualifier stripping, so the expression is kept whole. -/
theorem c7_default_alias_cex :
    inferDefaultAlias "e.parameters['from']" = "e.parameters['from']" ∧
    inferDefaultAlias "e.parameters['from']" ≠ "parameters['from']" := by
  refine ⟨rfl, ?_⟩
  decide

/-- **C7 (amended).**  Default-alias inference checks brackets/parentheses
*first*: an expression containing `[` or `(` is kept verbatim even when
dot-qualified; otherwise a single leading `<qualifier>.` is stripped (the
text after the first dot remains); otherwise the bare text is the alias. -/
theorem c7_default_alias_amended (s : List Char) :
    ((('[' ∈ s) ∨ ('(' ∈ s)) → inferDefaultAliasL s = s)
    ∧ (('[' ∉ s ∧ '(' ∉ s) → ∀ a b, s = a ++ '.' :: b → ('.' : Char) ∉ a →
        inferDefaultAliasL s = b)
    ∧ (('[' ∉ s ∧ '(' ∉ s ∧ ('.' : Char) ∉ s) → inferDefaultAliasL s = s) := by
  have hbrpat : ("[".data : List Char) = ['['] := rfl
  have hppat : ("(".data : List Char) = ['('] := rfl
  have hdpat : (".".data : List Char) = ['.'] := rfl
  refine ⟨?_, ?_, ?_⟩
  · rintro (h | h)
    · have hb : containsSub "[".data s = true := by
        rw [containsSub, hbrpat]
        exact splitFirstL_single_isSome h
      simp [inferDefaultAliasL, hb]
    · by_cases hb : containsSub "[".data s = true
      · simp [inferDefaultAliasL, hb]
      · have hp : containsSub "(".data s = true := by
          rw [containsSub, hppat]
          exact splitFirstL_single_isSome h
        simp [inferDefaultAliasL, hb, hp]
  · rintro ⟨hbr, hp⟩ a b rfl ha
    have h1 : containsSub "[".data (a ++ '.' :: b) = false := by
      rw [containsSub, hbrpat, splitFirstL_none_of_not_mem (by simp) hbr]
      rfl
    have h2 : containsSub "(".data (a ++ '.' :: b) = false := by
      rw [containsSub, hppat, splitFirstL_none_of_not_mem (by simp) hp]
      rfl
    have h3 : splitFirstL ".".data (a ++ '.' :: b) = some (a, b) := by
      rw [hdpat]
      exact splitFirstL_single_first a b ha
    simp [inferDefaultAliasL, h1, h2, h3]
  · rintro ⟨hbr, hp, hd⟩
    have h1 : containsSub "[".data s = false := by
      rw [containsSub, hbrpat, splitFirstL_none_of_not_mem (by simp) hbr]
      rfl
    have h2 : containsSub "(".data s = false := by
      rw [containsSub, hppat, splitFirstL_none_of_not_mem (by simp) hp]
      rfl
    have h3 : splitFirstL ".".data s = none := by
      rw [hdpat]
      exact splitFirstL_none_of_not_mem (by simp) hd
    simp [inferDefaultAliasL, h1, h2, h3]

/-- Witness for `c7_default_alias_amended` at three concrete expressions,
one per branch. -/
theorem c7_default_alias_amended_witness :
    inferDefaultAliasL "parameters['from']".data = "parameters['from']".data ∧
    inferDefaultAliasL "t.block_number".data = "block_number".data ∧
    inferDefaultAliasL "block_number".data = "block_number".data :=
  ⟨(c7_default_alias_amended "parameters['from']".data).1 (Or.inl (by decide)),
   (c7_default_alias_amended "t.block_number".data).2.1 (by decide)
     "t".data "block_number".data (by decide) (by decide),
   (c7_default_alias_amended "block_number".data).2.2 (by decide)⟩

/-! ## Claim C6: the alias boundary in `ParseSingleItem` / `FindLastAs` -/
/-- `FindLastAs` consumes ` as ` occurrences left to right; when the
remainder is free of ` as ` it becomes the alias.  Characterization: the
input splits as `a ++ " as " ++ b` with `b` free of ` as `, and the result
is `⟨trim (pre ++ " as " ++ a), trim b⟩`. -/
theorem findLastAsFuel_spec (fuel : Nat) :
    ∀ (pre rest : List Char), rest.length < fuel →
    containsSub " as ".data rest = true →
    ∃ a b, rest = a ++ " as ".data ++ b ∧
      containsSub " as ".data b = false ∧
      findLastAsFuel fuel pre rest = ⟨trimL (pre ++ " as ".data ++ a), trimL b⟩ := by
  induction fuel with
  | zero => intro pre rest h; omega
  | succ fuel ih =>
    intro pre rest hlen hcont
    obtain ⟨⟨a1, b1⟩, hsp⟩ := Option.isSome_iff_exists.mp (by simpa [containsSub] using hcont)
    have heq := splitFirstL_eq hsp
    by_cases hb1 : containsSub " as ".data b1 = true
    · have hlt : b1.length < fuel := by
        have := splitFirstL_length (by simp) hsp
        omega
      obtain ⟨a2, b2, hb1eq, hb2, hres⟩ := ih (pre ++ " as ".data ++ a1) b1 hlt hb1
      refine ⟨a1 ++ " as ".data ++ a2, b2, ?_, hb2, ?_⟩
      · rw [heq, hb1eq]
        simp [List.append_assoc]
      · show findLastAsFuel (fuel + 1) pre rest = _
        simp only [findLastAsFuel, hsp, hb1, if_pos]
        rw [hres]
        simp [List.append_assoc]
    · refine ⟨a1, b1, heq, by simpa using hb1, ?_⟩
      show findLastAsFuel (fuel + 1) pre rest = _
      simp only [findLastAsFuel, hsp]
      rw [if_neg (by simp [hb1])]

/-- Heads across an append respect `NoTwoSpaces`. -/
theorem noTwoSpaces_boundary {x y : List Char} (h : NoTwoSpaces (x ++ y))
    {lc hc : Char} (hx : x.getLast? = some lc) (hy : y.head? = some hc) :
    ¬(lc = ' ' ∧ hc = ' ') := by
  have := (List.chain'_append.mp h).2.2
  exact this lc hx hc hy

theorem head?_append_eq {x y : List Char} {c : Char}
    (h : x.head? = some c) : (x ++ y).head? = some c := by
  cases x with
  | nil => simp at h
  | cons d r => simpa using h

/-- A prefix of the trimmed, whitespace-collapsed text that is followed by
`" as ..."` (so by a space) is itself trimmed. -/
theorem trimL_prefix_eq_self {t e r : List Char}
    (ht : trimL t = e ++ ' ' :: r)
    (hno : ∀ c ∈ trimL t, wsToSpace c = c)
    (hch : NoTwoSpaces (trimL t)) : trimL e = e := by
  rcases List.eq_nil_or_concat e with rfl | ⟨e1, lc, rfl⟩
  · rfl
  · rw [List.concat_eq_append] at ht ⊢
    have hhead : ∀ c, (e1 ++ [lc]).head? = some c → isWsChar c = false := by
      intro c hc
      apply trimL_head?_not_ws (l := t)
      rw [ht]
      exact head?_append_eq hc
    have hpair : ¬(lc = ' ' ∧ (' ' : Char) = ' ') := by
      apply noTwoSpaces_boundary (x := e1 ++ [lc]) (y := ' ' :: r)
      · rw [← ht]; exact hch
      · exact List.getLast?_concat _
      · rfl
    have hlc : lc ≠ ' ' := fun hlceq => hpair ⟨hlceq, rfl⟩
    have hmem : lc ∈ trimL t := by rw [ht]; simp
    have hfix := hno lc hmem
    have hn : lc ≠ '\n' := by
      intro h
      subst h
      rw [show wsToSpace '\n' = ' ' from rfl] at hfix
      exact absurd hfix (by decide)
    have hr : lc ≠ '\r' := by
      intro h
      subst h
      rw [show wsToSpace '\r' = ' ' from rfl] at hfix
      exact absurd hfix (by decide)
    have htb : lc ≠ '\t' := by
      intro h
      subst h
      rw [show wsToSpace '\t' = ' ' from rfl] at hfix
      exact absurd hfix (by decide)
    have hlast : ∀ c, (e1 ++ [lc]).getLast? = some c → isWsChar c = false := by
      intro c hc
      have hceq : c = lc := by
        rw [List.getLast?_concat] at hc
        exact (Option.some.inj hc).symm
      subst hceq
      unfold isWsChar
      simp [hlc, hn, hr, htb]
    have h1 : trimEndL (e1 ++ [lc]) = e1 ++ [lc] := trimEndL_eq_self hlast
    show trimStartL (trimEndL (e1 ++ [lc])) = e1 ++ [lc]
    rw [h1]
    exact trimStartL_eq_self hhead

/-- **C6, counterexample.**  The claim says a cast's internal `... AS <type>`
(e.g. in `cast(value as uint64)` with no outer alias) is never captured as
the item's alias.  With exactly one ` as ` occurrence, `ParseSingleItem`
takes it as the boundary: the alias becomes `uint64)`. -/
theorem c6_cast_alias_captured_cex :
    parseSingleItem "cast(value as uint64)" =
      ⟨"cast(value".data, "uint64)".data⟩ ∧
    (parseSingleItem "cast(value as uint64)").aliasName ≠
      "cast(value as uint64)".data := by
  exact ⟨by decide, by decide⟩

/-- **C6 (amended).**  On collapsed, tab/newline-free input containing
` as `, `ParseSingleItem` splits the trimmed item as `E ++ " as " ++ A`
where the right-hand remainder `A` contains no further ` as ` (found by
repeated left-to-right scanning, hence the rightmost occurrence whenever
occurrences do not overlap, and not parenthesis-aware), and yields
`⟨trim E, trim A⟩`.  In particular a cast's internal ` as ` *is* chosen as
the boundary when no outer alias follows it. -/
theorem c6_alias_boundary_amended (s : List Char)
    (hno : ∀ c ∈ trimL s, wsToSpace c = c)
    (hch : NoTwoSpaces (trimL s))
    (hcont : containsSub " as ".data (trimL s) = true) :
    ∃ E A, trimL s = E ++ " as ".data ++ A ∧
      containsSub " as ".data A = false ∧
      parseSingleItemL s = ⟨trimL E, trimL A⟩ := by
  obtain ⟨⟨e, a0⟩, hsp⟩ :=
    Option.isSome_iff_exists.mp (by simpa [containsSub] using hcont)
  have heq := splitFirstL_eq hsp
  by_cases ha0 : containsSub " as ".data a0 = true
  · have htrim_e : trimL e = e := by
      apply trimL_prefix_eq_self (t := s) (r := "as ".data ++ a0)
        ?_ hno hch
      rw [heq, List.append_assoc]
      rfl
    obtain ⟨a, b, ha0eq, hbfree, hres⟩ :=
      findLastAsFuel_spec (a0.length + 1) (trimL e) a0 (by omega) ha0
    refine ⟨e ++ " as ".data ++ a, b, ?_, hbfree, ?_⟩
    · rw [heq, ha0eq]
      simp [List.append_assoc]
    · simp only [parseSingleItemL, hsp]
      rw [if_pos ha0]
      show findLastAsFuel (a0.length + 1) (trimL e) a0 = _
      rw [hres, htrim_e]
  · refine ⟨e, a0, heq, by simpa using ha0, ?_⟩
    simp only [parseSingleItemL, hsp]
    rw [if_neg (by simp [ha0])]

/-- Witness for `c6_alias_boundary_amended` at
`"cast(value as uint64) as v"`: the boundary is the outer ` as `, the alias
is `v`, and the expression keeps the whole cast text. -/
theorem c6_alias_boundary_amended_witness :
    containsSub " as ".data (trimL "cast(value as uint64) as v".data) = true ∧
    ∃ E A, trimL "cast(value as uint64) as v".data =
        E ++ " as ".data ++ A ∧
      containsSub " as ".data A = false ∧
      parseSingleItemL "cast(value as uint64) as v".data = ⟨trimL E, trimL A⟩ :=
  ⟨by decide,
   c6_alias_boundary_amended "cast(value as uint64) as v".data
     (by decide) (by decide) (by decide)⟩

/-! ## Claim C1: totality and fallback propagation of the text path -/
/-- **C1.**  `TypedQuery` / `InferRow` is a total function (the embedding is
a Lean function, mirroring that the type-level pipeline always produces a
type): for every input string, the result is either the permissive fallback
`Record<string, unknown>` or a fully resolved row shape; and each stage
failure — no ` from ` clause, unknown table, unextractable SELECT list —
degrades the *entire* output to the fallback, never to a partial result. -/
theorem c1_text_path_totality (sql : String) :
    (typedQueryRow sql = .fallback ∨
      ∃ cols, typedQueryRow sql = .resolved cols)
    ∧ (extractTableNameL (normalizeL sql.data) = none →
        typedQueryRow sql = .fallback)
    ∧ (∀ tn, extractTableNameL (normalizeL sql.data) = some tn →
        lookupTableSchema tn = none → typedQueryRow sql = .fallback)
    ∧ (∀ tn base, extractTableNameL (normalizeL sql.data) = some tn →
        lookupTableSchema tn = some base →
        extractSelectListL (normalizeL sql.data) = none →
        typedQueryRow sql = .fallback) := by
  refine ⟨?_, ?_, ?_, ?_⟩
  · cases h1 : extractTableNameL (normalizeL sql.data) with
    | none => left; simp [typedQueryRow, inferRowL, h1]
    | some tn =>
      cases h2 : lookupTableSchema tn with
      | none => left; simp [typedQueryRow, inferRowL, h1, h2]
      | some base =>
        cases h3 : extractSelectListL (normalizeL sql.data) with
        | none => left; simp [typedQueryRow, inferRowL, h1, h2, h3]
        | some sl =>
          right
          by_cases h4 : isSelectStarL sl = true
          · exact ⟨fullRowL (resolveSchemaL (normalizeL sql.data) base), by
              simp [typedQueryRow, inferRowL, h1, h2, h3, h4]⟩
          · exact ⟨resolveRowL (parseSelectItemsL sl)
                (resolveSchemaL (normalizeL sql.data) base), by
              simp [typedQueryRow, inferRowL, h1, h2, h3, h4]⟩
  · intro h
    simp [typedQueryRow, inferRowL, h]
  · intro tn h1 h2
    simp [typedQueryRow, inferRowL, h1, h2]
  · intro tn base h1 h2 h3
    simp [typedQueryRow, inferRowL, h1, h2, h3]

/-- Witness for `c1_text_path_totality`: the empty string (no FROM clause),
an unknown table, and a string with a FROM target but no SELECT list all
yield the fallback through the respective conjuncts. -/
theorem c1_text_path_totality_witness :
    typedQueryRow "" = .fallback ∧
    typedQueryRow "SELECT col FROM unknown_table" = .fallback ∧
    typedQueryRow "x from blocks" = .fallback :=
  ⟨(c1_text_path_totality "").2.1 rfl,
   (c1_text_path_totality "SELECT col FROM unknown_table").2.2.1
     "unknown_table".data rfl rfl,
   (c1_text_path_totality "x from blocks").2.2.2
     "blocks".data blocksSchema rfl rfl rfl⟩

theorem compileNodes_eq_map (l : List Ast) :
    compileNodes l = l.map compileNode := by
  induction l with
  | nil => rfl
  | cons n rest ih => rw [compileNodes, ih, List.map_cons]

theorem compileCtes_eq_map (l : List CteNode) :
    compileCtes l =
      l.map (fun c => c.name ++ " AS (" ++ compileQuery c.query ++ ")") := by
  induction l with
  | nil => rfl
  | cons c rest ih =>
    cases c with
    | mk n q =>
      rw [compileCtes, ih, List.map_cons]
      rfl

theorem compileJoin_eq_spec (j : JoinNode) : compileJoin j = specJoin j := by
  cases j with
  | mk ty tbl onC =>
    cases onC <;> cases htb : tbl.tAlias <;>
      simp only [compileJoin, specJoin, compileTable, JoinNode.jType,
        JoinNode.table, JoinNode.onCond, htb] <;>
      simp [String.append_assoc]

theorem compileJoins_eq_map (l : List JoinNode) :
    compileJoins l = l.map specJoin := by
  induction l with
  | nil => rfl
  | cons j rest ih => rw [compileJoins, ih, List.map_cons, compileJoin_eq_spec]

theorem compileOrderByItems_eq_map (l : List OrderByItemNode) :
    compileOrderByItems l = l.map specOrderBy := by
  induction l with
  | nil => rfl
  | cons o rest ih =>
    cases o with
    | mk e d =>
      rw [compileOrderByItems, ih, List.map_cons]
      rfl

theorem filterMap_some_join (l : List JoinNode) :
    List.filterMap (fun j => some (specJoin j)) l = l.map specJoin := by
  induction l with
  | nil => rfl
  | cons j rest ih => simp [List.filterMap_cons, ih]

/-! ## Claim C2: canonical serialization order (theorems) -/

/-- **C2.**  `compileQuery` emits the clauses in exactly the order and
format the spec prescribes — WITH (CTEs as `<name> AS (<subquery>)` joined
by `, `), `SELECT [DISTINCT]`, `FROM <table>[ AS <alias>]`, the JOIN
clauses, `WHERE` joined by ` AND ` without top-level parentheses,
`GROUP BY`, `HAVING` joined by ` AND `, `ORDER BY` with optional direction,
and `LIMIT` when present — and `And` nodes render joined by ` AND ` with no
wrapping parentheses while `Or` nodes render joined by ` OR ` in
parentheses. -/
theorem c2_compile_query_canonical :
    (∀ q : SelectQueryNode, compileQuery q = specSerialize q)
    ∧ (∀ cs : List Ast,
        compileNode (.andN cs) = joinSep " AND " (cs.map compileNode))
    ∧ (∀ cs : List Ast,
        compileNode (.orN cs) =
          "(" ++ joinSep " OR " (cs.map compileNode) ++ ")") := by
  refine ⟨?_, ?_, ?_⟩
  · intro q
    cases q with
    | mk ctes dist sels frm joins whr grp hav ord lim =>
      have hsrc : compileQuery (.mk ctes dist sels frm joins whr grp hav ord lim) =
          joinSep " "
            ((if ctes.length > 0 then
                ["WITH " ++ joinSep ", " (compileCtes ctes)] else [])
              ++ [(if dist then "SELECT DISTINCT" else "SELECT") ++ " " ++
                  joinSep ", " (compileNodes sels)]
              ++ ["FROM " ++ compileTable frm]
              ++ compileJoins joins
              ++ (if whr.length > 0 then
                  ["WHERE " ++ joinSep " AND " (compileNodes whr)] else [])
              ++ (if grp.length > 0 then
                  ["GROUP BY " ++ joinSep ", " (compileNodes grp)] else [])
              ++ (if hav.length > 0 then
                  ["HAVING " ++ joinSep " AND " (compileNodes hav)] else [])
              ++ (if ord.length > 0 then
                  ["ORDER BY " ++ joinSep ", " (compileOrderByItems ord)] else [])
              ++ (match lim with
                  | some n => ["LIMIT " ++ toString n]
                  | none => [])) := rfl
      rw [hsrc]
      apply congrArg (joinSep " ")
      rw [compileNodes_eq_map, compileNodes_eq_map, compileNodes_eq_map,
        compileNodes_eq_map, compileCtes_eq_map, compileJoins_eq_map,
        compileOrderByItems_eq_map]
      show _ = ((specClauses (.mk ctes dist sels frm joins whr grp hav ord lim)).filterMap id)
      simp only [specClauses, SelectQueryNode.ctes, SelectQueryNode.distinct,
        SelectQueryNode.selections, SelectQueryNode.fromT,
        SelectQueryNode.joins, SelectQueryNode.whereC,
        SelectQueryNode.groupByC, SelectQueryNode.havingC,
        SelectQueryNode.orderByC, SelectQueryNode.limit]
      rw [List.filterMap_append, List.filterMap_append]
      rcases frm with ⟨fn, _ | fa⟩ <;>
        rcases ctes with _ | ⟨c0, ctes⟩ <;>
        rcases whr with _ | ⟨w0, whr⟩ <;>
        rcases grp with _ | ⟨g0, grp⟩ <;>
        rcases hav with _ | ⟨h0, hav⟩ <;>
        rcases ord with _ | ⟨o0, ord⟩ <;>
        rcases lim with _ | l0 <;>
        simp [List.filterMap_cons, filterMap_some_join, compileTable,
          String.append_assoc]
  · intro cs
    rw [show compileNode (.andN cs) = joinSep " AND " (compileNodes cs) from rfl,
      compileNodes_eq_map]
  · intro cs
    rw [show compileNode (.orN cs) =
        "(" ++ joinSep " OR " (compileNodes cs) ++ ")" from rfl,
      compileNodes_eq_map]

theorem splitOnDot_ne_nil (l : List Char) : splitOnDot l ≠ [] := by
  cases l with
  | nil => simp [splitOnDot]
  | cons c r =>
    simp only [splitOnDot]
    rcases h : splitOnDot r with _ | ⟨p, ps⟩
    · simp
    · by_cases hc : c = '.' <;> simp [hc]

theorem splitOnDot_singleton {l x : List Char} (h : splitOnDot l = [x]) :
    l = x := by
  induction l generalizing x with
  | nil => simpa [splitOnDot] using h.symm
  | cons c r ih =>
    simp only [splitOnDot] at h
    rcases hr : splitOnDot r with _ | ⟨p, ps⟩
    · exact absurd hr (splitOnDot_ne_nil r)
    · rw [hr] at h
      dsimp only at h
      by_cases hc : c = '.'
      · rw [if_pos hc] at h
        simp at h
      · rw [if_neg hc] at h
        simp only [List.cons.injEq] at h
        obtain ⟨h1, h2⟩ := h
        have : r = p := ih (by rw [hr, h2])
        rw [← h1, this]

theorem splitOnDot_two {l a b : List Char} (h : splitOnDot l = [a, b]) :
    l = a ++ '.' :: b := by
  induction l generalizing a with
  | nil => simp [splitOnDot] at h
  | cons c r ih =>
    simp only [splitOnDot] at h
    rcases hr : splitOnDot r with _ | ⟨p, ps⟩
    · exact absurd hr (splitOnDot_ne_nil r)
    · rw [hr] at h
      dsimp only at h
      by_cases hc : c = '.'
      · rw [if_pos hc] at h
        simp only [List.cons.injEq] at h
        obtain ⟨h1, h2, h3⟩ := h
        have : r = b := splitOnDot_singleton (by rw [hr, h2, h3])
        rw [← h1, hc, this]
        rfl
      · rw [if_neg hc] at h
        simp only [List.cons.injEq] at h
        obtain ⟨h1, h2⟩ := h
        have : r = p ++ '.' :: b := ih (by rw [hr, h2])
        rw [← h1, this]
        rfl

/-! ## Claim C9: `toNode` string coercion (theorems) -/

/-- **C9, counterexample.**  The claim's parenthetical "(table-qualified
when it contains a dot)" fails on `a.b.c` (three dot-parts yield an
*unqualified* column holding the whole string), and "any other string
compiles as a single-quoted Value" fails on `*` (which compiles as a bare
star, not `'*'`). -/
theorem c9_to_node_cex :
    matchesIdentRegex "a.b.c" = true ∧
    toNode (.str "a.b.c") = .column none "a.b.c" ∧
    toNode (.str "*") = .star none ∧
    compileNode (toNode (.str "*")) = "*" ∧
    compileNode (toNode (.str "*")) ≠ "'*'" := by
  refine ⟨by decide, rfl, rfl, rfl, by decide⟩

/-- **C9 (amended).**  A string matching `/^[a-zA-Z_][a-zA-Z0-9_.]*$/`
becomes a `Column` node — table-qualified exactly when `split('.')` has two
parts (one dot), unqualified otherwise (zero dots, or two and more dots,
which keep the whole string as the name) — and always compiles unquoted to
the string itself; a non-matching string other than `*` compiles as a
single-quoted Value literal (`*` compiles as a bare star); e.g.
`eq(col('event_name'), 'transfer')` compiles to `event_name = transfer`. -/
theorem c9_to_node_amended (s : String) :
    (matchesIdentRegex s = true →
      compileNode (toNode (.str s)) = s ∧
      (∀ a b, splitOnDot s.data = [a, b] →
        toNode (.str s) = .column (some a.asString) b.asString) ∧
      ((splitOnDot s.data).length ≠ 2 → toNode (.str s) = .column none s))
    ∧ (matchesIdentRegex s = false → s ≠ "*" →
        toNode (.str s) = .value (.str s) ∧
        compileNode (toNode (.str s)) = "'" ++ s ++ "'")
    ∧ compileNode (ebEq (.column none "event_name") (.str "transfer")) =
        "event_name = transfer" := by
  refine ⟨?_, ?_, rfl⟩
  · intro hm
    refine ⟨?_, ?_, ?_⟩
    · rcases hsp : splitOnDot s.data with _ | ⟨p, ps⟩
      · exact absurd hsp (splitOnDot_ne_nil s.data)
      · rcases ps with _ | ⟨p2, ps2⟩
        · simp only [toNode, hm, if_pos, hsp]
          rfl
        · rcases ps2 with _ | ⟨p3, ps3⟩
          · simp only [toNode, hm, if_pos, hsp]
            have hdata : s.data = p ++ '.' :: p2 := splitOnDot_two hsp
            show compileNode (.column (some p.asString) p2.asString) = s
            show p.asString ++ "." ++ p2.asString = s
            apply String.ext
            simp only [String.data_append, hdata]
            rw [List.append_assoc]
            rfl
          · simp only [toNode, hm, if_pos, hsp]
            rfl
    · intro a b hsp
      simp [toNode, hm, hsp]
    · intro hlen
      rcases hsp : splitOnDot s.data with _ | ⟨p, ps⟩
      · exact absurd hsp (splitOnDot_ne_nil s.data)
      · rcases ps with _ | ⟨p2, ps2⟩
        · simp [toNode, hm, hsp]
        · rcases ps2 with _ | ⟨p3, ps3⟩
          · rw [hsp] at hlen
            simp at hlen
          · simp [toNode, hm, hsp]
  · intro hm hstar
    constructor
    · simp [toNode, hm, hstar]
    · simp [toNode, hm, hstar]
      rfl

/-- Witness for `c9_to_node_amended` at a qualified identifier, a bare
identifier, and a non-identifier string. -/
theorem c9_to_node_amended_witness :
    toNode (.str "t.block_number") = .column (some "t") "block_number" ∧
    compileNode (toNode (.str "event_name")) = "event_name" ∧
    toNode (.str "hello world") = .value (.str "hello world") := by
  refine ⟨?_, ?_, ?_⟩
  · have h := ((c9_to_node_amended "t.block_number").1 (by decide)).2.1
      "t".data "block_number".data (by decide)
    simpa using h
  · exact ((c9_to_node_amended "event_name").1 (by decide)).1
  · exact ((c9_to_node_amended "hello world").2.1 (by decide) (by decide)).1

/-! ## Claim C10: CTE hoisting (theorems) -/

/-- **C10.**  Every CteNode created by `with()` stores its subquery with an
empty `ctes` list (all other fields preserved); the outer chain gains only
that CTE, so CTEs defined inside the callback are dropped; a query whose
`ctes` list is empty compiles to text starting with `SELECT`, never with a
`WITH` clause; and a CTE renders as `<name> AS (<compiled subquery>)`, so no
WITH clause ever appears inside a `with()`-made CTE's parentheses. -/
theorem c10_cte_hoisting :
    (∀ (outer : List CteNode) (name : String) (built : SelectQueryNode),
      (cdpWith outer name built).map CteNode.name =
        outer.map CteNode.name ++ [name]
      ∧ ∀ c ∈ cdpWith outer name built,
          c ∈ outer ∨ c = CteNode.mk name (clearCtes built))
    ∧ (∀ built : SelectQueryNode, (clearCtes built).ctes = [] ∧
        (clearCtes built).selections = built.selections ∧
        (clearCtes built).fromT = built.fromT ∧
        (clearCtes built).joins = built.joins ∧
        (clearCtes built).whereC = built.whereC ∧
        (clearCtes built).groupByC = built.groupByC ∧
        (clearCtes built).havingC = built.havingC ∧
        (clearCtes built).orderByC = built.orderByC ∧
        (clearCtes built).limit = built.limit)
    ∧ (∀ q : SelectQueryNode, q.ctes = [] →
        (compileQuery q).data.take 6 = "SELECT".data ∧
        (compileQuery q).data.take 4 ≠ "WITH".data)
    ∧ (∀ c : CteNode, compileCte c =
        c.name ++ " AS (" ++ compileQuery c.query ++ ")") := by
  refine ⟨?_, ?_, ?_, ?_⟩
  · intro outer name built
    constructor
    · simp [cdpWith, CteNode.name]
    · intro c hc
      rcases List.mem_append.mp hc with h | h
      · exact Or.inl h
      · exact Or.inr (by simpa using h)
  · intro built
    cases built with
    | mk ctes d s f j w g h o l =>
      exact ⟨rfl, rfl, rfl, rfl, rfl, rfl, rfl, rfl, rfl⟩
  · intro q hq
    cases q with
    | mk ctes dist sels frm joins whr grp hav ord lim =>
      have hc : ctes = [] := hq
      subst hc
      cases dist
      · refine ⟨rfl, ?_⟩
        intro hcon
        have h4 : (compileQuery (SelectQueryNode.mk [] false sels frm joins
            whr grp hav ord lim)).data.take 4 = "SELE".data := rfl
        rw [h4] at hcon
        exact absurd hcon (by decide)
      · refine ⟨rfl, ?_⟩
        intro hcon
        have h4 : (compileQuery (SelectQueryNode.mk [] true sels frm joins
            whr grp hav ord lim)).data.take 4 = "SELE".data := rfl
        rw [h4] at hcon
        exact absurd hcon (by decide)
  · intro c
    cases c with
    | mk n q => rfl

/-- Witness for `c10_cte_hoisting`: a callback that itself defined a CTE
(`inner_cte`) and selects from it.  The outer chain gains only `outer_cte`;
the captured subquery has no CTEs; the full compiled SQL contains no
definition of `inner_cte` although the subquery still references it. -/
theorem c10_cte_hoisting_witness :
    (cdpWith [] "outer_cte"
        (SelectQueryNode.mk
          [CteNode.mk "inner_cte"
            (SelectQueryNode.mk [] false [Ast.star none]
              ⟨"base.blocks", none⟩ [] [] [] [] [] none)]
          false [Ast.star none] ⟨"inner_cte", none⟩
          [] [] [] [] [] none)).map CteNode.name = ["outer_cte"] ∧
    (clearCtes
        (SelectQueryNode.mk
          [CteNode.mk "inner_cte"
            (SelectQueryNode.mk [] false [Ast.star none]
              ⟨"base.blocks", none⟩ [] [] [] [] [] none)]
          false [Ast.star none] ⟨"inner_cte", none⟩
          [] [] [] [] [] none)).ctes = [] ∧
    (compileQuery
        (clearCtes
          (SelectQueryNode.mk
            [CteNode.mk "inner_cte"
              (SelectQueryNode.mk [] false [Ast.star none]
                ⟨"base.blocks", none⟩ [] [] [] [] [] none)]
            false [Ast.star none] ⟨"inner_cte", none⟩
            [] [] [] [] [] none))).data.take 6 = "SELECT".data ∧
    compileQuery
        (SelectQueryNode.mk
          (cdpWith [] "outer_cte"
            (SelectQueryNode.mk
              [CteNode.mk "inner_cte"
                (SelectQueryNode.mk [] false [Ast.star none]
                  ⟨"base.blocks", none⟩ [] [] [] [] [] none)]
              false [Ast.star none] ⟨"inner_cte", none⟩
              [] [] [] [] [] none))
          false [Ast.star none] ⟨"outer_cte", none⟩ [] [] [] [] [] none) =
      "WITH outer_cte AS (SELECT * FROM inner_cte) SELECT * FROM outer_cte" := by
  refine ⟨?_, ?_, ?_, rfl⟩
  · exact (c10_cte_hoisting.1 [] "outer_cte" _).1
  · exact (c10_cte_hoisting.2.1 _).1
  · exact (c10_cte_hoisting.2.2.1
      (clearCtes
        (SelectQueryNode.mk
          [CteNode.mk "inner_cte"
            (SelectQueryNode.mk [] false [Ast.star none]
              ⟨"base.blocks", none⟩ [] [] [] [] [] none)]
          false [Ast.star none] ⟨"inner_cte", none⟩
          [] [] [] [] [] none)) rfl).1

/-! ## Claim C4: ABI-aware parameter resolution (theorems) -/

/-- **C4.**  With no narrowing context, map-parameter resolution yields the
Variant union regardless of the supplied interfaces; with a narrowing, a
missing signature match or missing parameter name yields Variant; a full
match maps the declared Solidity type: `address` → HexString,
`bool` → boolean, `uint*`/`int*` → NumericString, `string` → string,
`bytes*` → HexString, anything else → plain string. -/
theorem c4_resolve_map_type :
    (∀ (abi : List AbiItem) (key : String),
      resolveMapType (.recordT variantT) abi none key = variantT)
    ∧ (∀ (abi : List AbiItem) (sig key : String),
        (∀ e ∈ extractEvents abi, cdpEventSignature e.1 e.2 ≠ sig) →
        resolveMapType (.recordT variantT) abi (some sig) key = variantT)
    ∧ (∀ (abi : List AbiItem) (sig key : String) e,
        findEventBySignature abi sig = some e →
        findParamByName e.2 key = none →
        resolveMapType (.recordT variantT) abi (some sig) key = variantT)
    ∧ (∀ (abi : List AbiItem) (sig key : String) e p,
        findEventBySignature abi sig = some e →
        findParamByName e.2 key = some p →
        resolveMapType (.recordT variantT) abi (some sig) key =
          solidityTypeToCdp p.ty)
    ∧ (solidityTypeToCdp "address" = .hexString
      ∧ solidityTypeToCdp "bool" = .boolean
      ∧ (∀ r, solidityTypeToCdp ("uint" ++ r) = .numericString)
      ∧ (∀ r, solidityTypeToCdp ("int" ++ r) = .numericString)
      ∧ solidityTypeToCdp "string" = .str
      ∧ (∀ r, solidityTypeToCdp ("bytes" ++ r) = .hexString)
      ∧ (∀ t, t ≠ "address" → t ≠ "bool" →
          ¬ "uint".data.isPrefixOf t.data = true →
          ¬ "int".data.isPrefixOf t.data = true →
          t ≠ "string" →
          ¬ "bytes".data.isPrefixOf t.data = true →
          solidityTypeToCdp t = .str)) := by
  have hne : ∀ (pre : String) (r : String) (t : String),
      pre.data.isPrefixOf (pre ++ r).data = true := by
    intro pre r _
    apply List.isPrefixOf_iff_prefix.mpr
    exact ⟨r.data, (String.data_append pre r).symm⟩
  refine ⟨?_, ?_, ?_, ?_, rfl, rfl, ?_, ?_, rfl, ?_, ?_⟩
  · intro abi key
    rfl
  · intro abi sig key h
    cases abi with
    | nil => rfl
    | cons a rest =>
      show eventParamType (a :: rest) sig key = variantT
      have hfind : findEventBySignature (a :: rest) sig = none := by
        apply List.find?_eq_none.mpr
        intro e he
        simp only [decide_eq_true_eq]
        exact h e he
      simp [eventParamType, hfind]
  · intro abi sig key e hfind hparam
    cases abi with
    | nil => simp [findEventBySignature, extractEvents] at hfind
    | cons a rest =>
      show eventParamType (a :: rest) sig key = variantT
      simp [eventParamType, hfind, hparam]
  · intro abi sig key e p hfind hparam
    cases abi with
    | nil => simp [findEventBySignature, extractEvents] at hfind
    | cons a rest =>
      show eventParamType (a :: rest) sig key = _
      simp [eventParamType, hfind, hparam]
  · intro r
    have h1 : ("uint" ++ r) ≠ "address" := by
      intro h
      have := congrArg String.data h
      simp [String.data_append] at this
    have h2 : ("uint" ++ r) ≠ "bool" := by
      intro h
      have := congrArg String.data h
      simp [String.data_append] at this
    simp [solidityTypeToCdp, h1, h2, hne "uint" r]
  · intro r
    have h1 : ("int" ++ r) ≠ "address" := by
      intro h
      have := congrArg String.data h
      simp [String.data_append] at this
    have h2 : ("int" ++ r) ≠ "bool" := by
      intro h
      have := congrArg String.data h
      simp [String.data_append] at this
    have h3 : "uint".data.isPrefixOf ("int" ++ r).data = false := rfl
    simp [solidityTypeToCdp, h1, h2, h3, hne "int" r]
  · intro r
    have h1 : ("bytes" ++ r) ≠ "address" := by
      intro h
      have := congrArg String.data h
      simp [String.data_append] at this
    have h2 : ("bytes" ++ r) ≠ "bool" := by
      intro h
      have := congrArg String.data h
      simp [String.data_append] at this
    have h3 : "uint".data.isPrefixOf ("bytes" ++ r).data = false := rfl
    have h4 : "int".data.isPrefixOf ("bytes" ++ r).data = false := rfl
    have h5 : ("bytes" ++ r) ≠ "string" := by
      intro h
      have := congrArg String.data h
      simp [String.data_append] at this
    simp [solidityTypeToCdp, h1, h2, h3, h4, h5, hne "bytes" r]
  · intro t h1 h2 h3 h4 h5 h6
    simp [solidityTypeToCdp, h1, h2, h3, h4, h5, h6]

/-- Witness for `c4_resolve_map_type`: an ERC-20 `Transfer` event ABI; the
`from` parameter resolves to HexString on a full signature match, to Variant
without narrowing, and to Variant for an unmatched signature. -/
theorem c4_resolve_map_type_witness :
    resolveMapType (.recordT variantT)
      [AbiItem.event "Transfer"
        [AbiParam.mk "address" (some "from") none,
         AbiParam.mk "address" (some "to") none,
         AbiParam.mk "uint256" (some "value") none],
       AbiItem.nonEvent]
      (some "Transfer(address,address,uint256)") "from" = .hexString ∧
    resolveMapType (.recordT variantT)
      [AbiItem.event "Transfer"
        [AbiParam.mk "address" (some "from") none,
         AbiParam.mk "address" (some "to") none,
         AbiParam.mk "uint256" (some "value") none],
       AbiItem.nonEvent]
      none "from" = variantT ∧
    resolveMapType (.recordT variantT)
      [AbiItem.event "Transfer"
        [AbiParam.mk "address" (some "from") none,
         AbiParam.mk "address" (some "to") none,
         AbiParam.mk "uint256" (some "value") none],
       AbiItem.nonEvent]
      (some "Approval(address,address,uint256)") "from" = variantT := by
  refine ⟨?_, ?_, ?_⟩
  · have h := c4_resolve_map_type.2.2.2.1
      [AbiItem.event "Transfer"
        [AbiParam.mk "address" (some "from") none,
         AbiParam.mk "address" (some "to") none,
         AbiParam.mk "uint256" (some "value") none],
       AbiItem.nonEvent]
      "Transfer(address,address,uint256)" "from"
      ("Transfer",
        [AbiParam.mk "address" (some "from") none,
         AbiParam.mk "address" (some "to") none,
         AbiParam.mk "uint256" (some "value") none])
      (AbiParam.mk "address" (some "from") none) rfl rfl
    rw [h]
    exact c4_resolve_map_type.2.2.2.2.1
  · exact c4_resolve_map_type.1
      [AbiItem.event "Transfer"
        [AbiParam.mk "address" (some "from") none,
         AbiParam.mk "address" (some "to") none,
         AbiParam.mk "uint256" (some "value") none],
       AbiItem.nonEvent] "from"
  · exact c4_resolve_map_type.2.1
      [AbiItem.event "Transfer"
        [AbiParam.mk "address" (some "from") none,
         AbiParam.mk "address" (some "to") none,
         AbiParam.mk "uint256" (some "value") none],
       AbiItem.nonEvent]
      "Approval(address,address,uint256)" "from" (by decide)

end TypedCdpSql

